import Mathlib

/-!
# Verification of the PyLink IRC S2S protocol core

A shallow embedding of `protocols/ircs2s_common.py` (UID generation, RFC1459
argument parsing, the PART/KICK/QUIT/KILL state mutators, the SQUIT topology
cascade, and the outbound command builders) together with the `remote` command
of `plugins/networks.py`, and proofs about them.

Network state is modelled with association lists (Python dicts preserve
insertion order, which the SQUIT cascade iterates over).  Helper code that
lives in `classes.py` (not part of the sources examined) is modelled from the
specification; each such definition carries a doc comment saying so.
-/

set_option autoImplicit false

namespace PyLink

/-! ## Association-list helpers (Python dict access) -/

/-- Lookup in an association list, first matching key wins
(Python `d[k]` / `d.get(k)`). -/
def alookup {α : Type} (k : String) : List (String × α) → Option α
  | [] => none
  | p :: rest => if p.1 = k then some p.2 else alookup k rest

/-- `Nodup` keys make membership and lookup agree. -/
def keysNodup {α : Type} (l : List (String × α)) : Prop :=
  (l.map Prod.fst).Nodup

instance {α : Type} (l : List (String × α)) : Decidable (keysNodup l) := by
  unfold keysNodup; infer_instance

/-- Python `list.remove`: delete the first occurrence. -/
def removeFirst : List String → String → List String
  | [], _ => []
  | x :: xs, y => if x = y then xs else x :: removeFirst xs y

/-! ## Python string/list helpers -/

/-- Python `str.split(sep)` for a one-character separator, on character
lists: splits at every occurrence, preserving empty fields
(`"a,,b" → ["a","","b"]`, `"" → [""]`). -/
def splitCharList (sep : Char) : List Char → List (List Char)
  | [] => [[]]
  | c :: rest =>
    match splitCharList sep rest with
    | [] => [[]]
    | g :: gs => if c = sep then [] :: g :: gs else (c :: g) :: gs

/-- Python `str.split(sep)` for a one-character separator. -/
def pySplit (sep : Char) (s : String) : List String :=
  (splitCharList sep s.data).map String.mk

/-- Python `str.lower()` (ASCII, as used for SIDs and server names). -/
def strToLower (s : String) : String := String.mk (s.data.map Char.toLower)

/-- Python `s.startswith(c)` for a single character. -/
def startsWithChar (c : Char) (s : String) : Bool :=
  match s.data with
  | [] => false
  | x :: _ => decide (x = c)

/-- Python `c in s` for a single character. -/
def strHasChar (c : Char) (s : String) : Bool :=
  decide (c ∈ s.data)

/-- Python `' '.join(l)`. -/
def joinSpace : List String → String
  | [] => ""
  | [x] => x
  | x :: xs => x ++ " " ++ joinSpace xs

/-- Python `s[1:]`: strip the first character. -/
def strDropHead (s : String) : String := String.mk (s.data.drop 1)

/-- Python `s[1:-1]`: strip exactly one leading and one trailing character. -/
def pyInner (s : String) : String := String.mk (s.data.drop 1).dropLast

/-- Python list indexing with negative indices
(`l[-1]` is the last element); out-of-range yields a junk character
(CPython raises `IndexError`; unreached for the inputs considered here). -/
def pyIdx (l : List Char) (i : Int) : Char :=
  if 0 ≤ i then l.getD i.toNat '?'
  else l.getD (l.length - (-i).toNat) '?'

/-- Python list item assignment with negative indices. -/
def pySet (l : List Char) (i : Int) (c : Char) : List Char :=
  if 0 ≤ i then l.set i.toNat c
  else l.set (l.length - (-i).toNat) c

/-- Python `str.find` on a character: index of first occurrence, `-1` if absent. -/
def pyFind : List Char → Char → Int
  | [], _ => -1
  | c' :: rest, c =>
    if c' = c then 0
    else
      match pyFind rest c with
      | -1 => -1
      | r => r + 1

/-- Split a character list at the first occurrence of `c`
(Python `s.split(c, 1)`): `none` when `c` does not occur. -/
def splitOnceChar (c : Char) : List Char → Option (List Char × List Char)
  | [] => none
  | x :: xs =>
    if x = c then some ([], xs)
    else (splitOnceChar c xs).map (fun p => (x :: p.1, p.2))

/-! ## Data model (the Network State Store, per the spec's §3) -/

/-- A user record: nickname and the set of channel names joined
(`classes.py` `User`; only the claim-relevant fields are carried). -/
structure UserData where
  nick : String
  channels : List String
  deriving DecidableEq, Repr

/-- A channel record: topic state and the membership set
(`classes.py` `Channel`; per-member prefix flags are not touched by any
claim and are elided). -/
structure ChannelData where
  topic : String
  topicset : Bool
  users : List String
  deriving DecidableEq, Repr

/-- A server record: display name, uplink SID (`none` for a root), and the
set of UIDs homed on this server. -/
structure ServerData where
  name : String
  uplink : Option String
  users : List String
  deriving DecidableEq, Repr

/-- One network connection's state (`IRCNetwork`): the three collections,
the own SID and uplink SID, and — modelled from the spec — the sets of
internally-owned clients and servers used by the outbound validation. -/
structure NetState where
  sid : String
  uplink : String
  servers : List (String × ServerData)
  users : List (String × UserData)
  channels : List (String × ChannelData)
  internalClients : List String
  internalServers : List String
  deriving DecidableEq, Repr

/-- Python exception kinds that the embedded code can raise. -/
inductive PyErr : Type
  | indexError
  | keyError
  | typeError
  | nameError
  | recursionError
  | protocolError (msg : String)
  | lookupError (msg : String)
  deriving DecidableEq, Repr

deriving instance DecidableEq for Except

/-- Result of running a handler: either an exception carrying the state at
the moment it was raised, or a normal return with the mutated state. -/
inductive HRes (α : Type) : Type
  | err (s : NetState) (e : PyErr)
  | ok (s : NetState) (v : α)
  deriving DecidableEq, Repr

/-- The state component of a handler result, whether or not it raised. -/
def HRes.state {α : Type} : HRes α → NetState
  | .err s _ => s
  | .ok s _ => s

/-! ## Identifier resolution (`_get_SID` / `_get_UID`) -/

/-- `IRCCommonProtocol._get_SID`: lowercase the argument; if it is a server
key return it, otherwise return the key of the first server whose display
name matches case-insensitively, falling back to the original text. -/
def resolveSID (st : NetState) (sname : String) : String :=
  let nm := strToLower sname
  if (alookup nm st.servers).isSome then nm
  else
    match st.servers.find? (fun p => strToLower p.2.name = nm) with
    | some p => p.1
    | none => sname

/-- Modelled from the spec: `nick_to_uid` lives in `classes.py` (not in the
sources examined) — resolution of a display name to the first user record
carrying that nickname, or `none`. -/
def nickToUid (st : NetState) (nick : String) : Option String :=
  (st.users.find? (fun p => p.2.nick = nick)).map (fun p => p.1)

/-- `IRCCommonProtocol._get_UID`: return the argument if it is a user key,
else try nickname resolution, falling back to the original text. -/
def resolveUID (st : NetState) (target : String) : String :=
  if (alookup target st.users).isSome then target
  else (nickToUid st target).getD target

/-! ## Primitive state mutations -/

/-- `Channel.remove_user` applied through `self._channels[chan]`: discard
`target` from the membership set of every entry named `chan`; a missing
channel is left alone (the spec creates channels only on join/topic burst,
so a best-effort removal on an absent channel is a no-op). -/
def chanRemoveUser (st : NetState) (chan target : String) : NetState :=
  { st with
    channels := st.channels.map (fun p =>
      if p.1 = chan then (p.1, { p.2 with users := p.2.users.filter (fun u => u ≠ target) })
      else p) }

/-- `self.users[source].channels.discard(chan)` guarded by
`try ... except KeyError`: drop `chan` from the channel set of the user
entry, a no-op when the user is unknown. -/
def userDiscardChannel (st : NetState) (target chan : String) : NetState :=
  { st with
    users := st.users.map (fun p =>
      if p.1 = target then (p.1, { p.2 with channels := p.2.channels.filter (fun c => c ≠ chan) })
      else p) }

/-- Modelled from the spec: `_remove_client` lives in `classes.py` (not in
the sources examined).  Per the spec it unconditionally removes the client
from state: from every channel membership set, from its home server's user
set (applying the discard to every server is equivalent under the
home-uniqueness invariant), and from the user table. -/
def removeClient (st : NetState) (u : String) : NetState :=
  { st with
    servers := st.servers.map (fun p => (p.1, { p.2 with users := p.2.users.filter (fun x => x ≠ u) })),
    users := st.users.filter (fun p => p.1 ≠ u),
    channels := st.channels.map (fun p => (p.1, { p.2 with users := p.2.users.filter (fun x => x ≠ u) })) }

/-! ## Argument parsing (`parse_args` / `parse_prefixed_args`) -/

/-- Loop of `IRCCommonProtocol.parse_args`: walk the raw fields with their
index; a field other than the first beginning with `":"` consumes itself and
everything after it, joined with single spaces, with the colon stripped. -/
def parseArgsAux : Nat → List String → List String
  | _, [] => []
  | idx, a :: rest =>
    if startsWithChar ':' a ∧ idx ≠ 0 then
      [strDropHead (joinSpace (a :: rest))]
    else a :: parseArgsAux (idx + 1) rest

/-- `IRCCommonProtocol.parse_args` on an already-split field list. -/
def parse_args (args : List String) : List String :=
  parseArgsAux 0 args

/-- `IRCCommonProtocol.parse_prefixed_args`: `parse_args`, then
`args[0] = args[0].split(':', 1)[1]` — which raises `IndexError` when the
first argument carries no `':'` (Python's 1-split returns a single-element
list and `[1]` is out of range). -/
def parse_prefixed_args (args : List String) : Except PyErr (List String) :=
  match parse_args args with
  | [] => .error .indexError
  | a :: rest =>
    match splitOnceChar ':' a.data with
    | none => .error .indexError
    | some (_, after) => .ok (String.mk after :: rest)

/-! ## The incremental UID generator (`IncrementalUIDGenerator`) -/

/-- Generator state: server prefix, allowed-character alphabet, suffix
length, and the current odometer characters. -/
structure UIDGen where
  sid : String
  allowed : List Char
  len : Nat
  uidchars : List Char
  deriving DecidableEq, Repr

/-- `IncrementalUIDGenerator.increment`, fuelled: Python recurses leftward on
a carry; at position `-1` the negative index silently wraps to the LAST
odometer cell (there is no overflow check in the source).  `none` models the
unbounded recursion (`RecursionError`) possible for one-character alphabets. -/
def increment (allowed : List Char) : Nat → List Char → Int → Option (List Char)
  | 0, _, _ => none
  | fuel + 1, uid, pos =>
    if pyIdx uid pos = pyIdx allowed (-1) then
      increment allowed fuel (pySet uid pos (allowed.headD '?')) (pos - 1)
    else
      let idx := pyFind allowed (pyIdx uid pos)
      some (pySet uid pos (pyIdx allowed (idx + 1)))

/-- `IncrementalUIDGenerator.next_uid`: emit `sid ++ suffix`, then advance
the odometer.  `none` when the advance does not terminate. -/
def next_uid (g : UIDGen) : Option (String × UIDGen) :=
  let uid := g.sid ++ String.mk g.uidchars
  (increment g.allowed (g.len + 2) g.uidchars ((g.len : Int) - 1)).map
    (fun cs => (uid, { g with uidchars := cs }))

/-! ## State mutators: PART / KICK / QUIT / KILL -/

/-- Hook payload of `handle_part`. -/
structure PartPayload where
  channels : List String
  text : String
  deriving DecidableEq, Repr

/-- The per-channel loop of `handle_part`: iterate over a copy of the
comma-split channel list; a channel the source is not a member of is removed
from the evolving hook list, and membership bookkeeping is removed
best-effort on both sides regardless. -/
def partLoop (source : String) : NetState → List String → List String → NetState × List String
  | st, chans, [] => (st, chans)
  | st, chans, c :: rest =>
    let isMem :=
      match alookup c st.channels with
      | some cd => decide (source ∈ cd.users)
      | none => false
    let chans' := if isMem then chans else removeFirst chans c
    let st' := userDiscardChannel (chanRemoveUser st c source) source c
    partLoop source st' chans' rest

/-- `IRCS2SProtocol.handle_part`.  Emits no hook when every named channel
was filtered out. -/
def handle_part (st : NetState) (source : String) (args : List String) :
    HRes (Option PartPayload) :=
  match args with
  | [] => .err st .indexError
  | a0 :: rest =>
    let chans0 := pySplit ',' a0
    let res := partLoop source st chans0 chans0
    let reason := rest.headD ""
    if res.2.isEmpty then .ok res.1 none
    else .ok res.1 (some { channels := res.2, text := reason })

/-- Hook payload of `handle_kick`. -/
structure KickPayload where
  channel : String
  target : String
  text : String
  deriving DecidableEq, Repr

/-- `IRCS2SProtocol.handle_kick`: resolve the kick target, delegate the
state change to `handle_part`, and always emit a hook with channel, target
and reason. -/
def handle_kick (st : NetState) (source : String) (args : List String) :
    HRes KickPayload :=
  match args with
  | a0 :: a1 :: rest =>
    let kicked := resolveUID st a1
    let reason := rest.headD ""
    match handle_part st kicked [a0, reason] with
    | .err s e => .err s e
    | .ok s _ => .ok s { channel := a0, target := kicked, text := reason }
  | _ => .err st .indexError

/-- `IRCS2SProtocol.handle_quit`: unconditionally remove the client, then
emit the quit text (an absent text raises `IndexError` after removal). -/
def handle_quit (st : NetState) (source : String) (args : List String) :
    HRes String :=
  let st' := removeClient st source
  match args with
  | [] => .err st' .indexError
  | a :: _ => .ok st' a

/-- Modelled from the spec: `get_friendly_name` lives in `classes.py` (not
in the sources examined) — the display name of an entity: server name for a
SID, nickname for a UID; the `KeyError` fallback of `handle_kill` (which
falls back to the raw source text) is folded in here. -/
def getFriendlyName (st : NetState) (x : String) : String :=
  match alookup x st.servers with
  | some d => d.name
  | none =>
    match alookup x st.users with
    | some u => u.nick
    | none => x

/-- Hook payload of `handle_kill`. -/
structure KillPayload where
  target : String
  text : String
  userdata : Option UserData
  deriving DecidableEq, Repr

/-- `IRCS2SProtocol.handle_kill`: remove the target if still present; when
the reason's first space-delimited token contains `'!'`, the killer's
display name is computed (`killer`) but — as in the source — never used: the
emitted text is only the bracketed message with one leading and one trailing
character stripped.  An empty extracted message hits the `log.warning` line
that references the undefined name `irc`, i.e. a `NameError`. -/
def handle_kill (st : NetState) (source : String) (args : List String) :
    HRes KillPayload :=
  match args with
  | a0 :: a1 :: _ =>
    let killed := resolveUID st a0
    let data := alookup killed st.users
    let st' := if data.isSome then removeClient st killed else st
    if strHasChar '!' ((pySplit ' ' a1).headD "") then
      let _killer := getFriendlyName st' source
      let killmsg := pyInner (joinSpace ((pySplit ' ' a1).drop 1))
      if killmsg = "" then .err st' .nameError
      else .ok st' { target := killed, text := killmsg, userdata := data }
    else .ok st' { target := killed, text := a1, userdata := data }
  | _ => .err st .indexError

/-! ## The topology cascade (`IRCCommonProtocol._squit`) -/

/-- The structured result returned by a completed `_squit`. -/
structure SquitPayload where
  target : String
  users : List String
  sname : String
  uplink : Option String
  nicks : List (String × List String)
  serverdata : ServerData
  channeldata : List (String × ChannelData)
  affectedServers : List String
  deriving DecidableEq, Repr

/-- `defaultdict(list)` append: `m[k].append(v)`. -/
def nickAdd (m : List (String × List String)) (k v : String) : List (String × List String) :=
  if (alookup k m).isSome then
    m.map (fun p => if p.1 = k then (p.1, p.2 ++ [v]) else p)
  else m ++ [(k, [v])]

/-- The per-user removal loop of `_squit` (lines iterating
`self.servers[split_server].users`): record the user as affected, collect
its nickname per channel it is visible in, then remove the client.  An
unknown UID raises `KeyError` (`self.users[user].nick`).  Membership is
tested against the live channel objects (the snapshot is a shallow copy), so
the current state's entry is consulted for each snapshot key. -/
def userLoop (oldCh : List (String × ChannelData)) :
    NetState → List (String × List String) → List String →
    HRes (List (String × List String))
  | st, acc, [] => .ok st acc
  | st, acc, u :: rest =>
    match alookup u st.users with
    | none => .err st .keyError
    | some ud =>
      let acc' := oldCh.foldl
        (fun m p =>
          if u ∈ ((alookup p.1 st.channels).getD p.2).users then nickAdd m p.1 ud.nick
          else m) acc
      userLoop oldCh (removeClient st u) acc' rest

/-- The reason string the cascade passes to recursive self-calls. -/
def squitAutoMsg (s : String) : String :=
  "PyLink: Automatically splitting leaf servers of " ++ s

/-- The child loop of `_squit`: walk the snapshot of the server table; every
server whose uplink is the split target is recursively split first, its
reported affected users and servers accumulated in order.  A recursive call
that returns `None` (already-removed server) makes Python subscript `None`
(`TypeError`); an exception propagates. -/
def squitKidsWith (rec : NetState → List String → HRes (Option SquitPayload))
    (target : String) :
    NetState → List (String × ServerData) → HRes (List String × List String)
  | st, [] => .ok st ([], [])
  | st, (s, d) :: rest =>
    if d.uplink = some target then
      match rec st [s, "0", squitAutoMsg s] with
      | .err s' e => .err s' e
      | .ok s' none => .err s' .typeError
      | .ok s' (some pay) =>
        match squitKidsWith rec target s' rest with
        | .err s2 e => .err s2 e
        | .ok s2 (us, ss) => .ok s2 (pay.users ++ us, pay.affectedServers ++ ss)
    else squitKidsWith rec target st rest

/-- `IRCCommonProtocol._squit`, fuelled (the Python recursion is unbounded
on a cyclic server table; one fuel unit is spent per nesting level).
Order of operations mirrors the source: resolve the target; raise
`ProtocolError` when it is the own SID or the uplink; return `None` for an
unknown server; snapshot the tables; recursively split children; remove the
users homed on the target; read the server record; delete it; return the
payload. -/
def squitFuel : Nat → NetState → List String → HRes (Option SquitPayload)
  | 0, st, _ => .err st .recursionError
  | fuel + 1, st, args =>
    match args with
    | [] => .err st .indexError
    | a0 :: rest =>
      let target := resolveSID st a0
      if target = st.sid ∨ target = st.uplink then
        .err st (.protocolError ("SQUIT received: (reason: " ++ (a0 :: rest).getLastD "" ++ ")"))
      else if (alookup target st.servers).isNone then
        .ok st none
      else
        let oldChannels := st.channels
        match squitKidsWith (fun s a => squitFuel fuel s a) target st st.servers with
        | .err s e => .err s e
        | .ok st1 (recUsers, recServers) =>
          match alookup target st1.servers with
          | none => .err st1 .keyError
          | some sd1 =>
            match userLoop oldChannels st1 [] sd1.users with
            | .err s e => .err s e
            | .ok st2 nicks =>
              match alookup target st2.servers with
              | none => .err st2 .keyError
              | some sd2 =>
                let st3 := { st2 with servers := st2.servers.filter (fun p => p.1 ≠ target) }
                .ok st3 (some
                  { target := target
                    users := recUsers ++ sd1.users
                    sname := sd2.name
                    uplink := sd2.uplink
                    nicks := nicks
                    serverdata := sd2
                    channeldata := oldChannels
                    affectedServers := target :: recServers })

/-! ## Outbound command builders (`IRCS2SProtocol`) -/

/-- Modelled from the spec: `is_internal_client` (`classes.py`) — whether
the acting identifier is an internally-owned client. -/
def isInternalClient (st : NetState) (u : String) : Bool :=
  st.internalClients.contains u

/-- Modelled from the spec: `is_internal_server` (`classes.py`). -/
def isInternalServer (st : NetState) (s : String) : Bool :=
  st.internalServers.contains s

/-- `_send_with_prefix`: format a raw line with a sender prefix.
(`_expandPUID`, from `classes.py`, is the identity on non-virtual
identifiers and is modelled as the identity.) -/
def sendFrom (source msg : String) : String :=
  ":" ++ source ++ " " ++ msg

/-- A builder outcome: the wire lines actually sent, and the handler-style
result (exception or normal return) with the final state. -/
abbrev BOut := List String × HRes Unit

/-- `IRCS2SProtocol.invite`. -/
def invite_cmd (st : NetState) (source target channel : String) : BOut :=
  if ¬ isInternalClient st source then
    ([], .err st (.lookupError "No such PyLink client exists."))
  else ([sendFrom source ("INVITE " ++ target ++ " " ++ channel)], .ok st ())

/-- `IRCS2SProtocol.kick`: validate, send, then mirror the state change by
calling `handle_part` on the target with the channel alone. -/
def kick_cmd (st : NetState) (source channel target reason : String) : BOut :=
  if ¬ isInternalClient st source ∧ ¬ isInternalServer st source then
    ([], .err st (.lookupError "No such PyLink client/server exists."))
  else
    let r := if reason = "" then "No reason given" else reason
    let line := sendFrom source ("KICK " ++ channel ++ " " ++ target ++ " :" ++ r)
    match handle_part st target [channel] with
    | .err s e => ([line], .err s e)
    | .ok s _ => ([line], .ok s ())

/-- `IRCS2SProtocol.numeric`: raw numerics carry NO ownership validation in
the source. -/
def numeric_cmd (st : NetState) (source numeric target text : String) : BOut :=
  ([sendFrom source (numeric ++ " " ++ target ++ " " ++ text)], .ok st ())

/-- `IRCS2SProtocol.part`. -/
def part_cmd (st : NetState) (client channel reason : String) : BOut :=
  if ¬ isInternalClient st client then
    ([], .err st (.lookupError "No such PyLink client exists."))
  else
    let msg := if reason ≠ "" then "PART " ++ channel ++ " :" ++ reason else "PART " ++ channel
    let line := sendFrom client msg
    match handle_part st client [channel] with
    | .err s e => ([line], .err s e)
    | .ok s _ => ([line], .ok s ())

/-- `IRCS2SProtocol.quit`. -/
def quit_cmd (st : NetState) (numeric reason : String) : BOut :=
  if isInternalClient st numeric then
    ([sendFrom numeric ("QUIT :" ++ reason)], .ok (removeClient st numeric) ())
  else ([], .err st (.lookupError "No such PyLink client exists."))

/-- `IRCS2SProtocol.message`. -/
def message_cmd (st : NetState) (numeric target text : String) : BOut :=
  if ¬ isInternalClient st numeric then
    ([], .err st (.lookupError "No such PyLink client exists."))
  else ([sendFrom numeric ("PRIVMSG " ++ target ++ " :" ++ text)], .ok st ())

/-- `IRCS2SProtocol.notice`. -/
def notice_cmd (st : NetState) (numeric target text : String) : BOut :=
  if ¬ isInternalClient st numeric ∧ ¬ isInternalServer st numeric then
    ([], .err st (.lookupError "No such PyLink client/server exists."))
  else ([sendFrom numeric ("NOTICE " ++ target ++ " :" ++ text)], .ok st ())

/-- `IRCS2SProtocol.squit`: NO ownership validation in the source — the line
is sent and `handle_squit` (= `_squit`) is invoked regardless of who the
acting identifier is. -/
def squit_cmd (st : NetState) (source target text : String) : BOut :=
  let line := sendFrom source ("SQUIT " ++ target ++ " :" ++ text)
  match squitFuel (st.servers.length + 1) st [target, text] with
  | .err s e => ([line], .err s e)
  | .ok s _ => ([line], .ok s ())

/-- `IRCS2SProtocol.topic`: validate, send, then set the channel's topic and
topic-set flag directly (an absent channel entry is left alone; the
auto-creating channel container lives in `classes.py`). -/
def topic_cmd (st : NetState) (source target text : String) : BOut :=
  if ¬ isInternalClient st source ∧ ¬ isInternalServer st source then
    ([], .err st (.lookupError "No such PyLink client/server exists."))
  else
    let line := sendFrom source ("TOPIC " ++ target ++ " :" ++ text)
    let st' := { st with
      channels := st.channels.map (fun p =>
        if p.1 = target then (p.1, { p.2 with topic := text, topicset := true }) else p) }
    ([line], .ok st' ())

/-! ## The `remote` command of `plugins/networks.py` -/

/-- The inputs the `remote` command consults: the process-wide
`REMOTE_IN_USE` flag, the origin network's name, the known networks with
their connected flags, the registered services with the networks on which
each has a spawned client, and — modelled from the spec, as the permissions
module is external — whether the caller holds one of the accepted
permissions. -/
structure RemoteWorld where
  inUse : Bool
  originNet : String
  networks : List (String × Bool)
  services : List (String × List String)
  permGranted : Bool
  deriving DecidableEq, Repr

/-- Observable outcome of one `remote` invocation: the error reply (if any),
the `REMOTE_IN_USE` flag after return, whether the command was dispatched to
the remote network, and whether the remote pseudoclient's account was
touched (the only remote-state mutation on the path). -/
structure RemoteOutcome where
  error : Option String
  inUse : Bool
  executed : Bool
  accountOverridden : Bool
  deriving DecidableEq, Repr

/-- `networks.remote`, following the source's branch order: empty command,
permission check, nesting guard, set flag, self-target check, unknown
network, unknown service, disconnected network, service unavailable, then
execution with the flag cleared in the `finally`. -/
def remote_cmd (w : RemoteWorld) (service netname : String) (command : List String) :
    RemoteOutcome :=
  if command.isEmpty then
    { error := some "No command given!", inUse := w.inUse,
      executed := false, accountOverridden := false }
  else if ¬ w.permGranted then
    { error := some "You are missing one of the following permissions",
      inUse := w.inUse, executed := false, accountOverridden := false }
  else if w.inUse then
    { error := some "The 'remote' command can not be nested.", inUse := w.inUse,
      executed := false, accountOverridden := false }
  else if netname = w.originNet then
    { error := some "Cannot remote-send a command to the local network; use a normal command!",
      inUse := false, executed := false, accountOverridden := false }
  else
    match alookup netname w.networks with
    | none =>
      { error := some "No such network (case sensitive).", inUse := false,
        executed := false, accountOverridden := false }
    | some connected =>
      match alookup service w.services with
      | none =>
        { error := some "Unknown service.", inUse := false,
          executed := false, accountOverridden := false }
      | some nets =>
        if ¬ connected then
          { error := some "Network is not connected.", inUse := false,
            executed := false, accountOverridden := false }
        else if ¬ nets.contains netname then
          { error := some "The requested service is not available.", inUse := false,
            executed := false, accountOverridden := false }
        else
          { error := none, inUse := false, executed := true, accountOverridden := true }

/-! ## The membership-consistency invariant and inbound op sequences -/

/-- The spec's invariant: a channel's membership set and a user's channel
set are mutually consistent —
`user ∈ channel.members ⇔ channel.name ∈ user.channels`. -/
def consistent (st : NetState) : Prop :=
  ∀ p ∈ st.channels, ∀ q ∈ st.users, (q.1 ∈ p.2.users ↔ p.1 ∈ q.2.channels)

instance (st : NetState) : Decidable (consistent st) := by
  unfold consistent; infer_instance

/-- One inbound handler invocation of the kinds claim C1 ranges over. -/
inductive NetOp : Type
  | part (source : String) (args : List String)
  | kick (source : String) (args : List String)
  | quit (source : String) (args : List String)
  | squit (args : List String)
  deriving DecidableEq, Repr

/-- Apply one handler invocation, keeping the state it leaves behind whether
it returned or raised. -/
def applyOp (st : NetState) : NetOp → NetState
  | .part src a => (handle_part st src a).state
  | .kick src a => (handle_kick st src a).state
  | .quit src a => (handle_quit st src a).state
  | .squit a => (squitFuel (st.servers.length + 1) st a).state

/-- Apply a sequence of handler invocations. -/
def applyOps (st : NetState) (ops : List NetOp) : NetState :=
  ops.foldl applyOp st

/-! ## Notions used to specify the topology cascade (claim C3) -/

/-- `Desc servers root s`: server `s` is transitively uplinked to `root` in
the given server table (there is an uplink chain from `s` up to `root`). -/
inductive Desc (servers : List (String × ServerData)) (root : String) : String → Prop
  | direct {s : String} {d : ServerData} :
      alookup s servers = some d → d.uplink = some root → Desc servers root s
  | step {s p : String} {d : ServerData} :
      alookup s servers = some d → d.uplink = some p → Desc servers root p →
      Desc servers root s

/-- A UID is removed by splitting `root` iff it is homed on `root` or on one
of its transitive descendants. -/
def RemovedUser (servers : List (String × ServerData)) (root : String) (u : String) : Prop :=
  ∃ s d, alookup s servers = some d ∧ (s = root ∨ Desc servers root s) ∧ u ∈ d.users

/-- Remove `dead` UIDs from a server record's user set. -/
def cutUsers (dead : List String) (d : ServerData) : ServerData :=
  { d with users := d.users.filter (fun u => decide (¬ u ∈ dead)) }

/-- Remove `dead` UIDs from a channel record's membership set. -/
def cutChan (dead : List String) (cd : ChannelData) : ChannelData :=
  { cd with users := cd.users.filter (fun u => decide (¬ u ∈ dead)) }

/-- The canonical shape of a state after a cascade: the servers named in
`deadServers` deleted, the UIDs in `deadUsers` deleted from the user table
and from every server user set and channel membership set. -/
def stripState (st : NetState) (deadServers deadUsers : List String) : NetState :=
  { st with
    servers := (st.servers.filter (fun p => decide (¬ p.1 ∈ deadServers))).map
      (fun p => (p.1, cutUsers deadUsers p.2)),
    users := st.users.filter (fun p => decide (¬ p.1 ∈ deadUsers)),
    channels := st.channels.map (fun p => (p.1, cutChan deadUsers p.2)) }

/-- The server table respects a rank function: every server's rank is
strictly below its uplink's rank (so uplink chains are acyclic and subtree
height is bounded by the root's rank). -/
def rankOk (rank : String → Nat) (servers : List (String × ServerData)) : Prop :=
  ∀ p ∈ servers, ∀ q ∈ p.2.uplink.toList, rank p.1 < rank q

instance (rank : String → Nat) (servers : List (String × ServerData)) :
    Decidable (rankOk rank servers) := by
  unfold rankOk; infer_instance

/-- Every UID listed on a server exists in the user table. -/
def serverUsersKnown (st : NetState) : Prop :=
  ∀ p ∈ st.servers, ∀ u ∈ p.2.users, (alookup u st.users).isSome = true

instance (st : NetState) : Decidable (serverUsersKnown st) := by
  unfold serverUsersKnown; infer_instance

/-- No UID is listed on two distinct servers (unique home server). -/
def uniqueHome (st : NetState) : Prop :=
  ∀ p ∈ st.servers, ∀ q ∈ st.servers, ∀ u ∈ p.2.users, u ∈ q.2.users → p.1 = q.1

instance (st : NetState) : Decidable (uniqueHome st) := by
  unfold uniqueHome; infer_instance

/-- Every server's user set is duplicate-free (they are Python sets). -/
def serverUsersNodup (st : NetState) : Prop :=
  ∀ p ∈ st.servers, p.2.users.Nodup

instance (st : NetState) : Decidable (serverUsersNodup st) := by
  unfold serverUsersNodup; infer_instance

/-- Every server key resolves to itself through `_get_SID` (no display name
shadows another server's SID). -/
def sidResolvesSelf (st : NetState) : Prop :=
  ∀ p ∈ st.servers, resolveSID st p.1 = p.1

instance (st : NetState) : Decidable (sidResolvesSelf st) := by
  unfold sidResolvesSelf; infer_instance

/-- The exact postcondition of a completed cascade on `target`: the result
is a normal return whose state is the input state stripped of the affected
servers and users, the affected-server list is exactly `target` plus its
transitive descendants with no duplicates, and the affected-user list is
exactly the users homed on those servers. -/
def SquitPost (st : NetState) (target : String) (res : HRes (Option SquitPayload)) : Prop :=
  ∃ pay : SquitPayload,
    res = .ok (stripState st pay.affectedServers pay.users) (some pay) ∧
    (∀ x, x ∈ pay.affectedServers ↔ (x = target ∨ Desc st.servers target x)) ∧
    pay.affectedServers.Nodup ∧
    (∀ u, u ∈ pay.users ↔ RemovedUser st.servers target u)

/-- The well-formedness bundle under which the cascade is exact: duplicate-
free server table respecting a rank function, server user-sets known,
duplicate-free and uniquely homed, SIDs self-resolving, the target known,
distinct from the own SID and the uplink, and ranked no higher than either
(so no descendant can be the own SID or the uplink). -/
def MasterHyp (rank : String → Nat) (st : NetState) (target : String) : Prop :=
  keysNodup st.servers ∧ rankOk rank st.servers ∧ serverUsersKnown st ∧
  uniqueHome st ∧ serverUsersNodup st ∧ sidResolvesSelf st ∧
  (alookup target st.servers).isSome = true ∧
  target ≠ st.sid ∧ target ≠ st.uplink ∧
  rank target ≤ rank st.sid ∧ rank target ≤ rank st.uplink

instance (rank : String → Nat) (st : NetState) (target : String) :
    Decidable (MasterHyp rank st target) := by
  unfold MasterHyp keysNodup; infer_instance

/-- The claim C3 statement of cascade exactness, for a run of `_squit` on
`target` from state `st` that returned state `st'` and payload `pay`:
the affected-server list is exactly `target` plus its transitive
descendants with no duplicates; the affected users are exactly those homed
on an affected server; every affected server and user is gone from `st'`;
every other server and user keeps its entry unchanged; and every channel
none of whose members was removed keeps its entry unchanged. -/
def CascadeExact (st st' : NetState) (target : String) (pay : SquitPayload) : Prop :=
  (∀ x, x ∈ pay.affectedServers ↔ (x = target ∨ Desc st.servers target x)) ∧
  pay.affectedServers.Nodup ∧
  (∀ u, u ∈ pay.users ↔ RemovedUser st.servers target u) ∧
  (∀ x, (x = target ∨ Desc st.servers target x) → alookup x st'.servers = none) ∧
  (∀ x d, alookup x st.servers = some d → ¬ (x = target ∨ Desc st.servers target x) →
    alookup x st'.servers = some d) ∧
  (∀ u, RemovedUser st.servers target u → alookup u st'.users = none) ∧
  (∀ u ud, alookup u st.users = some ud → ¬ RemovedUser st.servers target u →
    alookup u st'.users = some ud) ∧
  (∀ c cd, (c, cd) ∈ st.channels → (∀ u ∈ cd.users, ¬ RemovedUser st.servers target u) →
    (c, cd) ∈ st'.channels)

/-! ## Concrete states used by witnesses and counterexamples -/

/-- Minimal state for the self-SQUIT witness. -/
def selfSquitSt : NetState :=
  { sid := "abc", uplink := "upl", servers := [], users := [], channels := [],
    internalClients := [], internalServers := [] }

/-- State used to evaluate `handle_kill` at the claim C5 failing input. -/
def killSt : NetState :=
  { sid := "1PY", uplink := "0AL",
    servers := [("001", { name := "GL", uplink := none, users := ["38QAAAAAA"] })],
    users := [("38QAAAAAA", { nick := "ice", channels := [] })],
    channels := [], internalClients := [], internalServers := [] }

/-- State used to show the `squit`/`numeric` builders skip validation. -/
def noCheckSt : NetState :=
  { sid := "1PY", uplink := "0AL",
    servers := [("1PY", { name := "pylink.local", uplink := none, users := [] }),
                ("0AL", { name := "up.link", uplink := none, users := [] }),
                ("00B", { name := "leaf.server", uplink := some "0AL", users := [] })],
    users := [], channels := [], internalClients := [], internalServers := [] }

/-- `noCheckSt` after the unvalidated `squit` call removed server `00B`. -/
def noCheckStAfter : NetState :=
  { noCheckSt with
    servers := [("1PY", { name := "pylink.local", uplink := none, users := [] }),
                ("0AL", { name := "up.link", uplink := none, users := [] })] }

/-- World used by the `remote` self-target witness. -/
def remoteW : RemoteWorld :=
  { inUse := false, originNet := "net1",
    networks := [("net1", true), ("net2", true)],
    services := [("pylink", ["net1", "net2"])], permGranted := true }

/-- State used by the kick-of-non-member witness. -/
def kickSt : NetState :=
  { sid := "1PY", uplink := "0AL",
    servers := [("1PY", { name := "pylink.local", uplink := none, users := ["u1"] })],
    users := [("u1", { nick := "alice", channels := ["#test"] })],
    channels := [("#test", { topic := "", topicset := false, users := ["u1"] })],
    internalClients := [], internalServers := [] }

/-- State used by the membership-consistency witness: one user in one
channel, consistent. -/
def seqSt : NetState :=
  { sid := "1PY", uplink := "0AL",
    servers := [("1PY", { name := "pylink.local", uplink := none, users := [] }),
                ("0AL", { name := "up.link", uplink := none, users := ["u1", "u2"] }),
                ("00B", { name := "leaf.server", uplink := some "0AL", users := ["u3"] })],
    users := [("u1", { nick := "alice", channels := ["#a", "#b"] }),
              ("u2", { nick := "bob", channels := ["#a"] }),
              ("u3", { nick := "eve", channels := ["#b"] })],
    channels := [("#a", { topic := "", topicset := false, users := ["u1", "u2"] }),
                 ("#b", { topic := "", topicset := false, users := ["u1", "u3"] })],
    internalClients := [], internalServers := [] }

/-- Two-level split scenario for the cascade witness: `00A` hosts `00B`
which hosts `00C`, users attached at every level, plus unrelated servers,
users and channels. -/
def cascadeSt : NetState :=
  { sid := "1PY", uplink := "0AL",
    servers := [("1PY", { name := "pylink.local", uplink := none, users := [] }),
                ("0AL", { name := "up.link", uplink := none, users := ["u0"] }),
                ("00A", { name := "hub.split", uplink := some "0AL", users := ["u1"] }),
                ("00B", { name := "mid.split", uplink := some "00A", users := ["u2"] }),
                ("00C", { name := "leaf.split", uplink := some "00B", users := ["u3"] }),
                ("00Z", { name := "other.srv", uplink := some "0AL", users := ["u4"] })],
    users := [("u0", { nick := "zero", channels := ["#a"] }),
              ("u1", { nick := "one", channels := ["#a", "#b"] }),
              ("u2", { nick := "two", channels := ["#b"] }),
              ("u3", { nick := "three", channels := [] }),
              ("u4", { nick := "four", channels := ["#a"] })],
    channels := [("#a", { topic := "", topicset := false, users := ["u0", "u1", "u4"] }),
                 ("#b", { topic := "", topicset := false, users := ["u1", "u2"] })],
    internalClients := [], internalServers := [] }

/-- A rank function witnessing that `cascadeSt`'s table is a tree with the
split target's subtree ranked below everything else. -/
def cascadeRank (s : String) : Nat :=
  if s = "00C" then 0
  else if s = "00B" then 1
  else if s = "00A" then 2
  else if s = "00Z" then 2
  else 3

/-! ## Basic lemmas about the helpers -/

@[simp] theorem alookup_nil {α : Type} (k : String) :
    alookup (α := α) k [] = none := rfl
theorem alookup_cons {α : Type} (k : String) (p : String × α) (l : List (String × α)) :
    alookup k (p :: l) = if p.1 = k then some p.2 else alookup k l := rfl
/-- A successful lookup yields a member of the list. -/
theorem alookup_mem {α : Type} {k : String} {v : α} :
    ∀ {l : List (String × α)}, alookup k l = some v → (k, v) ∈ l := by
  intro l
  induction l with
  | nil => intro h; simp at h
  | cons p rest ih =>
    intro h
    rw [alookup_cons] at h
    by_cases hk : p.1 = k
    · obtain ⟨a, b⟩ := p
      simp only at hk
      subst hk
      simp at h
      subst h
      exact List.mem_cons_self _ _
    · rw [if_neg hk] at h
      exact List.mem_cons_of_mem _ (ih h)
theorem mem_alookup {α : Type} {k : String} {v : α} {l : List (String × α)}
    (hnd : keysNodup l) (hm : (k, v) ∈ l) : alookup k l = some v := by
  induction l with
  | nil => simp at hm
  | cons p rest ih =>
    unfold keysNodup at hnd
    simp only [List.map_cons, List.nodup_cons] at hnd
    rcases List.mem_cons.mp hm with h | h
    · subst h
      simp [alookup_cons]
    · have hk : p.1 ≠ k := by
        intro he
        exact hnd.1 (he ▸ (List.mem_map.mpr ⟨(k, v), h, rfl⟩))
      rw [alookup_cons, if_neg hk]
      exact ih hnd.2 h
theorem keysNodup_cons {α : Type} {p : String × α} {l : List (String × α)}
    (h : keysNodup (p :: l)) : keysNodup l := by
  unfold keysNodup at h ⊢
  simp only [List.map_cons, List.nodup_cons] at h
  exact h.2
theorem parse_args_cons (a : String) (rest : List String) :
    parse_args (a :: rest) = a :: parseArgsAux 1 rest := by
  simp [parse_args, parseArgsAux]

theorem splitOnceChar_eq_none {c : Char} :
    ∀ {l : List Char}, c ∉ l → splitOnceChar c l = none := by
  intro l
  induction l with
  | nil => intro _; rfl
  | cons x xs ih =>
    intro h
    have hx : x ≠ c := fun he => h (he ▸ List.mem_cons_self x xs)
    have hxs : c ∉ xs := fun hm => h (List.mem_cons_of_mem x hm)
    simp [splitOnceChar, hx, ih hxs]
@[simp] theorem HRes.state_err {α : Type} (s : NetState) (e : PyErr) :
    (HRes.err (α := α) s e).state = s := rfl
@[simp] theorem HRes.state_ok {α : Type} (s : NetState) (v : α) :
    (HRes.ok s v).state = s := rfl

/-! ## Claim C2: UID generation overflow -/

/-- Claim C2 (code bug evaluation): for the alphabet `['A','B']` with suffix
width 1 (so N = 2¹ = 2), a fresh generator returns the pairwise-distinct
identifiers `9PYA` and `9PYB` on its first two calls, but after the second
call its odometer is back at `['B']` — an exact fixpoint — so the third call
(N+1) silently returns the already-issued `9PYB` instead of raising the
identifier-space-exhausted condition: the carry past position 0 lands on
Python index `-1`, which wraps to the last odometer cell. -/
theorem uid_generator_wraps_silently :
    next_uid { sid := "9PY", allowed := ['A', 'B'], len := 1, uidchars := ['A'] } =
      some ("9PYA", { sid := "9PY", allowed := ['A', 'B'], len := 1, uidchars := ['B'] }) ∧
    next_uid { sid := "9PY", allowed := ['A', 'B'], len := 1, uidchars := ['B'] } =
      some ("9PYB", { sid := "9PY", allowed := ['A', 'B'], len := 1, uidchars := ['B'] }) ∧
    ("9PYA" : String) ≠ "9PYB" := by
  decide

/-! ## Claim C4: SQUIT of self or uplink -/

/-- Claim C4: invoking the SQUIT handler with any argument vector whose
target resolves to the network's own SID or to its uplink raises
`ProtocolError`, and the carried state is exactly the input state — the
check precedes every mutation. -/
theorem squit_self_target_protocol_error (fuel : Nat) (st : NetState)
    (a0 : String) (rest : List String)
    (h : resolveSID st a0 = st.sid ∨ resolveSID st a0 = st.uplink) :
    squitFuel (fuel + 1) st (a0 :: rest) =
      .err st (.protocolError
        ("SQUIT received: (reason: " ++ (a0 :: rest).getLastD "" ++ ")")) := by
  simp only [squitFuel]
  rw [if_pos h]

/-- Witness for C4 at a concrete state: an unknown name falls back to
itself in `_get_SID`, so the own SID is hit directly. -/
theorem squit_self_target_protocol_error_witness :
    (resolveSID selfSquitSt "abc" = selfSquitSt.sid ∨
      resolveSID selfSquitSt "abc" = selfSquitSt.uplink) ∧
    squitFuel 1 selfSquitSt ["abc"] =
      .err selfSquitSt (.protocolError
        ("SQUIT received: (reason: " ++ (["abc"] : List String).getLastD "" ++ ")")) :=
  ⟨Or.inl (by decide),
   squit_self_target_protocol_error 0 selfSquitSt "abc" [] (Or.inl (by decide))⟩

/-! ## Claim C5: KILL message formatting -/

/-- Claim C5 (code bug evaluation): on the TS6-style kill
`:001 KILL 38QAAAAAA :hidden-1C620195!GL (test)` — whose reason's first
space-delimited token contains `'!'` — the handler emits the bare bracketed
message `"test"`: the resolved display name of the killer (`"GL"`, the name
of server `001`) is computed into the unused variable `killer` and never
prefixed, although the source's own comment asks for
`Killed (killername (reason))`. -/
theorem handle_kill_drops_killer_prefix :
    handle_kill killSt "001" ["38QAAAAAA", "hidden-1C620195!GL (test)"] =
      .ok (removeClient killSt "38QAAAAAA")
        { target := "38QAAAAAA", text := "test",
          userdata := some { nick := "ice", channels := [] } } ∧
    getFriendlyName (removeClient killSt "38QAAAAAA") "001" = "GL" ∧
    ("test" : String).data.take ("GL" : String).data.length ≠ ("GL" : String).data := by
  decide

/-! ## Claim C6: outbound builder validation -/

/-- Claim C6 as amended: the outbound builders `invite`, `part`, `quit` and
`message` (internal client required) and `kick`, `notice` and `topic`
(internal client or server required) reject a non-internal acting
identifier with a `LookupError` before anything is sent: no wire line and
the state untouched.  (`squit` and `numeric` are excluded: they validate
nothing — see the counterexample.) -/
theorem outbound_builders_validate_sender (st : NetState) (src a b c : String)
    (hc : isInternalClient st src = false) (hs : isInternalServer st src = false) :
    invite_cmd st src a b = ([], .err st (.lookupError "No such PyLink client exists.")) ∧
    kick_cmd st src a b c = ([], .err st (.lookupError "No such PyLink client/server exists.")) ∧
    part_cmd st src a b = ([], .err st (.lookupError "No such PyLink client exists.")) ∧
    quit_cmd st src a = ([], .err st (.lookupError "No such PyLink client exists.")) ∧
    message_cmd st src a b = ([], .err st (.lookupError "No such PyLink client exists.")) ∧
    notice_cmd st src a b = ([], .err st (.lookupError "No such PyLink client/server exists.")) ∧
    topic_cmd st src a b = ([], .err st (.lookupError "No such PyLink client/server exists.")) := by
  refine ⟨?_, ?_, ?_, ?_, ?_, ?_, ?_⟩ <;>
    simp [invite_cmd, kick_cmd, part_cmd, quit_cmd, message_cmd, notice_cmd,
      topic_cmd, hc, hs]

/-- Witness for the amended C6 at a concrete non-internal sender. -/
theorem outbound_builders_validate_sender_witness :
    isInternalClient noCheckSt "XXX" = false ∧
    isInternalServer noCheckSt "XXX" = false ∧
    invite_cmd noCheckSt "XXX" "t" "#c" =
      ([], .err noCheckSt (.lookupError "No such PyLink client exists.")) :=
  ⟨by decide, by decide,
   (outbound_builders_validate_sender noCheckSt "XXX" "t" "#c" "r"
     (by decide) (by decide)).1⟩

/-- Counterexample to claim C6 as stated: the `squit` builder — explicitly
listed among the outbound builders — performs no ownership validation: for
the non-internal acting identifier `XXX` it raises no lookup failure, puts
a line on the wire, and mutates local state (server `00B` is removed); the
`numeric` builder likewise sends without validating. -/
theorem outbound_squit_skips_validation :
    isInternalClient noCheckSt "XXX" = false ∧
    isInternalServer noCheckSt "XXX" = false ∧
    squit_cmd noCheckSt "XXX" "00B" "bye" =
      ([":XXX SQUIT 00B :bye"], .ok noCheckStAfter ()) ∧
    noCheckStAfter ≠ noCheckSt ∧
    numeric_cmd noCheckSt "XXX" "421" "tgt" "txt" =
      ([":XXX 421 tgt txt"], .ok noCheckSt ()) := by
  decide

/-! ## Claim C9: self-targeted remote routing -/

/-- Claim C9: a `remote` invocation whose target network equals the origin
network (entered normally: some command given, permission granted, no
remote command already in flight) is rejected with the
cannot-remote-send-to-the-local-network error; no command is executed on
any network, no remote network state is touched, and `REMOTE_IN_USE` is
clear when the invocation returns. -/
theorem remote_self_target_rejected (w : RemoteWorld) (service netname : String)
    (command : List String) (hcmd : command ≠ []) (hperm : w.permGranted = true)
    (hflag : w.inUse = false) (hself : netname = w.originNet) :
    remote_cmd w service netname command =
      { error := some "Cannot remote-send a command to the local network; use a normal command!",
        inUse := false, executed := false, accountOverridden := false } := by
  cases command with
  | nil => exact absurd rfl hcmd
  | cons x xs => simp [remote_cmd, hperm, hflag, hself]

/-- Witness for C9 at a concrete world. -/
theorem remote_self_target_rejected_witness :
    ((["echo", "hi"] : List String) ≠ [] ∧ remoteW.permGranted = true ∧
      remoteW.inUse = false ∧ "net1" = remoteW.originNet) ∧
    remote_cmd remoteW "pylink" "net1" ["echo", "hi"] =
      { error := some "Cannot remote-send a command to the local network; use a normal command!",
        inUse := false, executed := false, accountOverridden := false } :=
  ⟨⟨by decide, by decide, by decide, by decide⟩,
   remote_self_target_rejected remoteW "pylink" "net1" ["echo", "hi"]
     (by decide) (by decide) (by decide) (by decide)⟩

/-! ## Claim C10: partiality of the sender-prefixed parser -/

/-- Claim C10: on any non-empty field list whose first element contains no
`':'`, `parse_prefixed_args` raises `IndexError` (Python's
`args[0].split(':', 1)[1]` subscripts a one-element list) instead of
returning an argument list — while `parse_args` itself is a total function
returning a result for every list. -/
theorem parse_prefixed_args_partial (a : String) (rest : List String)
    (h : ':' ∉ a.data) :
    parse_prefixed_args (a :: rest) = .error .indexError := by
  simp only [parse_prefixed_args, parse_args_cons, splitOnceChar_eq_none h]

/-- Witness for C10 at the concrete line `PRIVMSG #chan`. -/
theorem parse_prefixed_args_partial_witness :
    (':' ∉ ("PRIVMSG" : String).data) ∧
    parse_prefixed_args ["PRIVMSG", "#chan"] = .error .indexError :=
  ⟨by decide, parse_prefixed_args_partial "PRIVMSG" ["#chan"] (by decide)⟩

/-! ## Claim C8: rest-of-line argument parsing -/

theorem parseArgsAux_firstColon (l : List String) :
    ∀ (k i : Nat) (hi : i < l.length), k ≠ 0 →
      startsWithChar ':' (l.get ⟨i, hi⟩) = true →
      (∀ j (hj : j < l.length), j < i → startsWithChar ':' (l.get ⟨j, hj⟩) = false) →
      parseArgsAux k l = l.take i ++ [strDropHead (joinSpace (l.drop i))] := by
  induction l with
  | nil => intro k i hi; simp at hi
  | cons b r ih =>
    intro k i hi hk hc hmin
    cases i with
    | zero =>
      have hb : startsWithChar ':' b = true := hc
      simp [parseArgsAux, hb, hk]
    | succ m =>
      have hb : startsWithChar ':' b = false := by
        have := hmin 0 (by simp) (Nat.succ_pos m)
        simpa using this
      have hm : m < r.length := by
        simpa using Nat.lt_of_succ_lt_succ hi
      have hc' : startsWithChar ':' (r.get ⟨m, hm⟩) = true := hc
      have hmin' : ∀ j (hj : j < r.length), j < m →
          startsWithChar ':' (r.get ⟨j, hj⟩) = false := by
        intro j hj hjm
        exact hmin (j + 1) (by simpa using Nat.succ_lt_succ hj) (Nat.succ_lt_succ hjm)
      have ihr := ih (k + 1) m hm (Nat.succ_ne_zero k) hc' hmin'
      simp [parseArgsAux, hb, ihr]

/-- Claim C8: when some field after the first begins with `':'`, the parser
returns the fields before the first such field unchanged, followed by one
final argument — that field and everything after it re-joined with single
spaces, with the leading `':'` stripped.  (The witness instantiates the
claim's scenario `["PRIVMSG", "#chan", ":hello", "world"]`.) -/
theorem parse_args_rest_of_line (l : List String) (i : Nat) (hi : i < l.length)
    (h0 : 0 < i) (hc : startsWithChar ':' (l.get ⟨i, hi⟩) = true)
    (hmin : ∀ j (hj : j < l.length), 0 < j → j < i →
      startsWithChar ':' (l.get ⟨j, hj⟩) = false) :
    parse_args l = l.take i ++ [strDropHead (joinSpace (l.drop i))] := by
  cases l with
  | nil => simp at hi
  | cons a r =>
    cases i with
    | zero => exact absurd h0 (by simp)
    | succ m =>
      have hm : m < r.length := by
        simpa using Nat.lt_of_succ_lt_succ hi
      have hc' : startsWithChar ':' (r.get ⟨m, hm⟩) = true := hc
      have hmin' : ∀ j (hj : j < r.length), j < m →
          startsWithChar ':' (r.get ⟨j, hj⟩) = false := by
        intro j hj hjm
        exact hmin (j + 1) (by simpa using Nat.succ_lt_succ hj) (Nat.succ_pos j)
          (Nat.succ_lt_succ hjm)
      rw [parse_args_cons]
      have := parseArgsAux_firstColon r 1 m hm one_ne_zero hc' hmin'
      simp [this]

/-- Witness for C8: the claim's own scenario, with the right-hand side
evaluated to `["PRIVMSG", "#chan", "hello world"]`. -/
theorem parse_args_rest_of_line_witness :
    (startsWithChar ':'
        ((["PRIVMSG", "#chan", ":hello", "world"] : List String).get ⟨2, by decide⟩) = true) ∧
    parse_args ["PRIVMSG", "#chan", ":hello", "world"] = ["PRIVMSG", "#chan", "hello world"] :=
  ⟨by decide,
   (parse_args_rest_of_line ["PRIVMSG", "#chan", ":hello", "world"] 2 (by decide)
      (by decide) (by decide)
      (by
        intro j hj h0j hj2
        have hj1 : j = 1 := by omega
        subst hj1
        show startsWithChar ':' ("#chan" : String) = false
        decide)).trans (by decide)⟩

/-! ## Claim C7: KICK of a non-member -/

theorem map_eq_self {α : Type} {l : List α} {f : α → α} (h : ∀ a ∈ l, f a = a) :
    l.map f = l := by
  induction l with
  | nil => rfl
  | cons x xs ih => simp [h x (by simp), ih (fun a ha => h a (by simp [ha]))]

theorem chanRemoveUser_nonmember {st : NetState} {chan u : String}
    (hmem : ∀ p ∈ st.channels, p.1 = chan → u ∉ p.2.users) :
    chanRemoveUser st chan u = st := by
  unfold chanRemoveUser
  have hmap : st.channels.map (fun p =>
      if p.1 = chan then (p.1, { p.2 with users := p.2.users.filter (fun x => x ≠ u) })
      else p) = st.channels := by
    apply map_eq_self
    intro p hp
    by_cases hpc : p.1 = chan
    · rw [if_pos hpc]
      have hne : p.2.users.filter (fun x => x ≠ u) = p.2.users := by
        apply List.filter_eq_self.mpr
        intro a ha
        have hau : a ≠ u := fun he => (hmem p hp hpc) (he ▸ ha)
        simp [hau]
      rw [hne]
    · rw [if_neg hpc]
  rw [hmap]

theorem userDiscardChannel_nonmember {st : NetState} {u chan : String}
    (hch : ∀ q ∈ st.users, q.1 = u → chan ∉ q.2.channels) :
    userDiscardChannel st u chan = st := by
  unfold userDiscardChannel
  have hmap : st.users.map (fun p =>
      if p.1 = u then (p.1, { p.2 with channels := p.2.channels.filter (fun c => c ≠ chan) })
      else p) = st.users := by
    apply map_eq_self
    intro q hq
    by_cases hqc : q.1 = u
    · rw [if_pos hqc]
      have hne : q.2.channels.filter (fun c => c ≠ chan) = q.2.channels := by
        apply List.filter_eq_self.mpr
        intro a ha
        have hac : a ≠ chan := fun he => (hch q hq hqc) (he ▸ ha)
        simp [hac]
      rw [hne]
    · rw [if_neg hqc]
  rw [hmap]

/-- Claim C7: an inbound KICK whose (resolved) target is not a member of the
named channel raises nothing, leaves channel membership and user state
exactly unchanged, and the delegated PART emits no hook at all — so no hook
channel list names the target's channel; the KICK hook itself is still
emitted with channel, target and reason. -/
theorem kick_nonmember_noop (st : NetState) (src chan tgt : String)
    (rst : List String)
    (hcons : consistent st)
    (hsplit : pySplit ',' chan = [chan])
    (hchan : (alookup chan st.channels).isSome = true)
    (hmem : ∀ p ∈ st.channels, p.1 = chan → resolveUID st tgt ∉ p.2.users) :
    handle_kick st src (chan :: tgt :: rst) =
      .ok st { channel := chan, target := resolveUID st tgt, text := rst.headD "" } ∧
    handle_part st (resolveUID st tgt) [chan, rst.headD ""] = .ok st none := by
  obtain ⟨cd, hcd⟩ := Option.isSome_iff_exists.mp hchan
  have hcdmem : (chan, cd) ∈ st.channels := alookup_mem hcd
  have hnotin : resolveUID st tgt ∉ cd.users := hmem (chan, cd) hcdmem rfl
  have hcru : chanRemoveUser st chan (resolveUID st tgt) = st :=
    chanRemoveUser_nonmember hmem
  have hudc : userDiscardChannel st (resolveUID st tgt) chan = st := by
    apply userDiscardChannel_nonmember
    intro q hq hqu
    intro hin
    exact hnotin (hqu ▸ ((hcons (chan, cd) hcdmem q hq).mpr hin))
  have hloop : partLoop (resolveUID st tgt) st [chan] [chan] = (st, []) := by
    unfold partLoop
    rw [hcd]
    simp only [decide_eq_true_eq]
    rw [if_neg hnotin]
    unfold removeFirst
    rw [if_pos rfl, hcru, hudc]
    rfl
  have hpart : handle_part st (resolveUID st tgt) [chan, rst.headD ""] = .ok st none := by
    simp only [handle_part]
    rw [hsplit, hloop]
    rfl
  refine ⟨?_, hpart⟩
  simp only [handle_kick]
  rw [hpart]

/-- Witness for C7: kicking the unknown nick `ghost` from `#test`. -/
theorem kick_nonmember_noop_witness :
    (consistent kickSt ∧ pySplit ',' "#test" = ["#test"] ∧
      (alookup "#test" kickSt.channels).isSome = true ∧
      (∀ p ∈ kickSt.channels, p.1 = "#test" → resolveUID kickSt "ghost" ∉ p.2.users)) ∧
    handle_kick kickSt "u1" ["#test", "ghost", "r"] =
      .ok kickSt { channel := "#test", target := resolveUID kickSt "ghost", text := "r" } :=
  ⟨⟨by decide, by decide, by decide, by decide⟩,
   (kick_nonmember_noop kickSt "u1" "#test" "ghost" ["r"]
      (by decide) (by decide) (by decide) (by decide)).1⟩

/-! ## Claim C1: membership consistency is preserved -/

theorem consistent_partStep (st : NetState) (c u : String) (h : consistent st) :
    consistent (userDiscardChannel (chanRemoveUser st c u) u c) := by
  intro p' hp' q' hq'
  simp only [userDiscardChannel, chanRemoveUser] at hp' hq'
  obtain ⟨p, hp, rfl⟩ := List.mem_map.mp hp'
  obtain ⟨q, hq, rfl⟩ := List.mem_map.mp hq'
  have hiff := h p hp q hq
  by_cases hpc : p.1 = c <;> by_cases hqu : q.1 = u
  · simp [hpc, hqu, List.mem_filter]
  · simp [hpc, hqu, List.mem_filter, hiff]
  · rw [hqu] at hiff
    simp [hpc, hqu, List.mem_filter, hiff]
  · simp [hpc, hqu, hiff]

theorem consistent_removeClient (st : NetState) (u : String) (h : consistent st) :
    consistent (removeClient st u) := by
  intro p' hp' q' hq'
  simp only [removeClient] at hp' hq'
  obtain ⟨p, hp, rfl⟩ := List.mem_map.mp hp'
  rw [List.mem_filter] at hq'
  obtain ⟨hq, hqu⟩ := hq'
  have hqu' : q'.1 ≠ u := by simpa using hqu
  have hiff := h p hp q' hq
  simp [List.mem_filter, hqu', hiff]

theorem consistent_partLoop (src : String) :
    ∀ (iter : List String) (st : NetState) (chans : List String),
      consistent st → consistent (partLoop src st chans iter).1 := by
  intro iter
  induction iter with
  | nil => intro st chans h; simpa [partLoop] using h
  | cons c rest ih =>
    intro st chans h
    simp only [partLoop]
    exact ih _ _ (consistent_partStep st c src h)

theorem consistent_handle_part (st : NetState) (src : String) (args : List String)
    (h : consistent st) : consistent (handle_part st src args).state := by
  cases args with
  | nil => simpa [handle_part] using h
  | cons a0 rest =>
    simp only [handle_part]
    have := consistent_partLoop src (pySplit ',' a0) st (pySplit ',' a0) h
    split <;> simpa using this

theorem consistent_handle_kick (st : NetState) (src : String) (args : List String)
    (h : consistent st) : consistent (handle_kick st src args).state := by
  cases args with
  | nil => simpa [handle_kick] using h
  | cons a0 rest =>
    cases rest with
    | nil => simpa [handle_kick] using h
    | cons a1 rst =>
      simp only [handle_kick]
      have hp := consistent_handle_part st (resolveUID st a1) [a0, rst.headD ""] h
      cases hres : handle_part st (resolveUID st a1) [a0, rst.headD ""] with
      | err s e => rw [hres] at hp; simpa using hp
      | ok s v => rw [hres] at hp; simpa using hp

theorem consistent_handle_quit (st : NetState) (src : String) (args : List String)
    (h : consistent st) : consistent (handle_quit st src args).state := by
  cases args with
  | nil => simpa [handle_quit] using consistent_removeClient st src h
  | cons a rest => simpa [handle_quit] using consistent_removeClient st src h

theorem consistent_userLoop (oldCh : List (String × ChannelData)) :
    ∀ (us : List String) (st : NetState) (acc : List (String × List String)),
      consistent st → consistent (userLoop oldCh st acc us).state := by
  intro us
  induction us with
  | nil => intro st acc h; simpa [userLoop] using h
  | cons u rest ih =>
    intro st acc h
    simp only [userLoop]
    cases alookup u st.users with
    | none => simpa using h
    | some ud => exact ih _ _ (consistent_removeClient st u h)

theorem consistent_squitKids (rec : NetState → List String → HRes (Option SquitPayload))
    (target : String)
    (hrec : ∀ s a, consistent s → consistent (rec s a).state) :
    ∀ (L : List (String × ServerData)) (st : NetState),
      consistent st → consistent (squitKidsWith rec target st L).state := by
  intro L
  induction L with
  | nil => intro st h; simpa [squitKidsWith] using h
  | cons p rest ih =>
    intro st h
    obtain ⟨s, d⟩ := p
    simp only [squitKidsWith]
    split
    · have h1 := hrec st [s, "0", squitAutoMsg s] h
      split
      · rename_i s1 e heq
        rw [heq] at h1; simpa using h1
      · rename_i s1 heq
        rw [heq] at h1; simpa using h1
      · rename_i s1 pay heq
        rw [heq] at h1
        simp only [HRes.state_ok] at h1
        have h2 := ih s1 h1
        split
        · rename_i s2 e2 heq2
          rw [heq2] at h2; simpa using h2
        · rename_i s2 us ss heq2
          rw [heq2] at h2; simpa using h2
    · exact ih st h

theorem consistent_squitFuel :
    ∀ (fuel : Nat) (st : NetState) (args : List String),
      consistent st → consistent (squitFuel fuel st args).state := by
  intro fuel
  induction fuel with
  | zero => intro st args h; simpa [squitFuel] using h
  | succ fuel ih =>
    intro st args h
    cases args with
    | nil => simpa [squitFuel] using h
    | cons a0 rest =>
      simp only [squitFuel]
      split
      · simpa using h
      · split
        · simpa using h
        · have hkids := consistent_squitKids (fun s a => squitFuel fuel s a)
            (resolveSID st a0) (fun s a hc => ih s a hc) st.servers st h
          split
          · rename_i s1 e heq
            rw [heq] at hkids; simpa using hkids
          · rename_i st1 recUsers recServers heq
            rw [heq] at hkids
            simp only [HRes.state_ok] at hkids
            split
            · simpa using hkids
            · rename_i sd1 heq1
              have hul := consistent_userLoop st.channels sd1.users st1 [] hkids
              split
              · rename_i s2 e2 heq2
                rw [heq2] at hul; simpa using hul
              · rename_i st2 nicks heq2
                rw [heq2] at hul
                simp only [HRes.state_ok] at hul
                split
                · simpa using hul
                · exact hul

/-- Claim C1: from any state satisfying the mutual-consistency invariant
(`user ∈ channel.members ⇔ channel.name ∈ user.channels`), every sequence of
inbound PART / KICK / QUIT / SQUIT handler invocations — whatever their
arguments, and whether they return or raise — leaves a state satisfying the
invariant. -/
theorem membership_consistency_preserved (st : NetState) (h : consistent st)
    (ops : List NetOp) : consistent (applyOps st ops) := by
  induction ops generalizing st with
  | nil => simpa [applyOps] using h
  | cons op rest ih =>
    have h1 : consistent (applyOp st op) := by
      cases op with
      | part src a => exact consistent_handle_part st src a h
      | kick src a => exact consistent_handle_kick st src a h
      | quit src a => exact consistent_handle_quit st src a h
      | squit a => exact consistent_squitFuel (st.servers.length + 1) st a h
    simpa [applyOps, List.foldl] using ih (applyOp st op) h1

/-- Witness for C1: a consistent two-channel state taken through a PART, a
KICK, a QUIT and a netsplit. -/
theorem membership_consistency_preserved_witness :
    consistent seqSt ∧
    consistent (applyOps seqSt
      [.part "u1" ["#a"], .kick "x" ["#b", "u3", "r"], .quit "u2" ["bye"],
       .squit ["00B", "r"]]) :=
  ⟨by decide,
   membership_consistency_preserved seqSt (by decide)
     [.part "u1" ["#a"], .kick "x" ["#b", "u3", "r"], .quit "u2" ["bye"],
      .squit ["00B", "r"]]⟩

/-! ## Claim C3: algebra of stripped states -/

theorem alookup_filter_dead {α : Type} (k : String) (dead : List String) :
    ∀ (l : List (String × α)),
      alookup k (l.filter (fun p => decide (¬ p.1 ∈ dead))) =
        if k ∈ dead then none else alookup k l := by
  intro l
  induction l with
  | nil => simp [alookup_cons]
  | cons p rest ih =>
    by_cases hpd : p.1 ∈ dead
    · rw [List.filter_cons_of_neg (by simpa using hpd), ih]
      by_cases hk : k ∈ dead
      · simp [hk]
      · have hpk : p.1 ≠ k := fun he => hk (he ▸ hpd)
        simp [hk, alookup_cons, hpk]
    · rw [List.filter_cons_of_pos (by simpa using hpd)]
      by_cases hpk : p.1 = k
      · have hk : k ∉ dead := fun hkd => hpd (hpk ▸ hkd)
        simp [alookup_cons, hpk, hk]
      · rw [alookup_cons, if_neg hpk, ih, alookup_cons, if_neg hpk]

theorem alookup_map_values {α β : Type} (k : String) (f : α → β) :
    ∀ (l : List (String × α)),
      alookup k (l.map (fun p => (p.1, f p.2))) = (alookup k l).map f := by
  intro l
  induction l with
  | nil => simp
  | cons p rest ih =>
    by_cases hpk : p.1 = k
    · simp [alookup_cons, hpk]
    · simp only [List.map_cons, alookup_cons, if_neg hpk, ih]

theorem strip_servers_alookup (st : NetState) (ds du : List String) (k : String) :
    alookup k (stripState st ds du).servers =
      if k ∈ ds then none else (alookup k st.servers).map (cutUsers du) := by
  unfold stripState
  rw [alookup_map_values, alookup_filter_dead]
  by_cases hk : k ∈ ds <;> simp [hk]

theorem strip_users_alookup (st : NetState) (ds du : List String) (k : String) :
    alookup k (stripState st ds du).users =
      if k ∈ du then none else alookup k st.users := by
  unfold stripState
  rw [alookup_filter_dead]

theorem filter_dead_append (d1 d2 : List String) :
    ∀ (l : List String),
      (l.filter (fun x => decide (¬ x ∈ d1))).filter (fun x => decide (¬ x ∈ d2)) =
        l.filter (fun x => decide (¬ x ∈ d1 ++ d2)) := by
  intro l
  induction l with
  | nil => rfl
  | cons x rest ih =>
    by_cases h1 : x ∈ d1
    · rw [List.filter_cons_of_neg (by simpa using h1),
        List.filter_cons_of_neg (by simp [h1]), ih]
    · rw [List.filter_cons_of_pos (by simpa using h1)]
      by_cases h2 : x ∈ d2
      · rw [List.filter_cons_of_neg (by simpa using h2),
          List.filter_cons_of_neg (by simp [h2]), ih]
      · rw [List.filter_cons_of_pos (by simpa using h2),
          List.filter_cons_of_pos (by simp [h1, h2]), ih]

theorem filter_dead_keys_append {α : Type} (d1 d2 : List String) :
    ∀ (l : List (String × α)),
      (l.filter (fun p => decide (¬ p.1 ∈ d1))).filter (fun p => decide (¬ p.1 ∈ d2)) =
        l.filter (fun p => decide (¬ p.1 ∈ d1 ++ d2)) := by
  intro l
  induction l with
  | nil => rfl
  | cons x rest ih =>
    by_cases h1 : x.1 ∈ d1
    · rw [List.filter_cons_of_neg (by simpa using h1),
        List.filter_cons_of_neg (by simp [h1]), ih]
    · rw [List.filter_cons_of_pos (by simpa using h1)]
      by_cases h2 : x.1 ∈ d2
      · rw [List.filter_cons_of_neg (by simpa using h2),
          List.filter_cons_of_neg (by simp [h2]), ih]
      · rw [List.filter_cons_of_pos (by simpa using h2),
          List.filter_cons_of_pos (by simp [h1, h2]), ih]

theorem filter_dead_map_comm {α β : Type} (ds : List String) (f : α → β) :
    ∀ (l : List (String × α)),
      (l.map (fun p => (p.1, f p.2))).filter (fun p => decide (¬ p.1 ∈ ds)) =
        (l.filter (fun p => decide (¬ p.1 ∈ ds))).map (fun p => (p.1, f p.2)) := by
  intro l
  induction l with
  | nil => rfl
  | cons x rest ih =>
    by_cases hx : x.1 ∈ ds
    · rw [List.map_cons, List.filter_cons_of_neg (by simpa using hx),
        List.filter_cons_of_neg (by simpa using hx), ih]
    · rw [List.map_cons, List.filter_cons_of_pos (by simpa using hx),
        List.filter_cons_of_pos (by simpa using hx), List.map_cons, ih]

theorem map_congr_fn {α β : Type} {l : List α} {f g : α → β}
    (h : ∀ a ∈ l, f a = g a) : l.map f = l.map g := by
  induction l with
  | nil => rfl
  | cons x xs ih =>
    simp only [List.map_cons, h x (by simp)]
    rw [ih (fun a ha => h a (by simp [ha]))]

theorem cutUsers_cutUsers (d1 d2 : List String) (d : ServerData) :
    cutUsers d2 (cutUsers d1 d) = cutUsers (d1 ++ d2) d := by
  unfold cutUsers
  simp only [filter_dead_append]

theorem cutChan_cutChan (d1 d2 : List String) (cd : ChannelData) :
    cutChan d2 (cutChan d1 cd) = cutChan (d1 ++ d2) cd := by
  unfold cutChan
  simp only [filter_dead_append]

theorem strip_strip (st : NetState) (ds du ds' du' : List String) :
    stripState (stripState st ds du) ds' du' = stripState st (ds ++ ds') (du ++ du') := by
  obtain ⟨sid, upl, S, U, C, ic, isv⟩ := st
  simp only [stripState, NetState.mk.injEq, true_and, and_true]
  refine ⟨?_, ?_, ?_⟩
  · rw [filter_dead_map_comm, List.map_map, filter_dead_keys_append]
    apply map_congr_fn
    intro p _
    simp [Function.comp, cutUsers_cutUsers]
  · rw [filter_dead_keys_append]
  · rw [List.map_map]
    apply map_congr_fn
    intro p _
    simp [Function.comp, cutChan_cutChan]

theorem strip_servers_def (st : NetState) (ds du : List String) :
    (stripState st ds du).servers =
      (st.servers.filter (fun p => decide (¬ p.1 ∈ ds))).map
        (fun p => (p.1, cutUsers du p.2)) := rfl

theorem strip_sid (st : NetState) (ds du : List String) :
    (stripState st ds du).sid = st.sid := rfl

theorem strip_uplink (st : NetState) (ds du : List String) :
    (stripState st ds du).uplink = st.uplink := rfl

theorem strip_channels (st : NetState) (ds du : List String) :
    (stripState st ds du).channels = st.channels.map (fun p => (p.1, cutChan du p.2)) := rfl

theorem cutUsers_name (du : List String) (d : ServerData) :
    (cutUsers du d).name = d.name := rfl

theorem cutUsers_uplink (du : List String) (d : ServerData) :
    (cutUsers du d).uplink = d.uplink := rfl

theorem strip_servers_mem {st : NetState} {ds du : List String}
    {q : String × ServerData} :
    q ∈ (stripState st ds du).servers ↔
      ∃ d0, (q.1, d0) ∈ st.servers ∧ ¬ q.1 ∈ ds ∧ q.2 = cutUsers du d0 := by
  obtain ⟨q1, q2⟩ := q
  rw [strip_servers_def]
  constructor
  · intro hq
    obtain ⟨p, hp, hpq⟩ := List.mem_map.mp hq
    rw [List.mem_filter] at hp
    have h1 : p.1 = q1 := congrArg Prod.fst hpq
    have h2 : cutUsers du p.2 = q2 := congrArg Prod.snd hpq
    refine ⟨p.2, ?_, ?_, h2.symm⟩
    · show (q1, p.2) ∈ st.servers
      rw [← h1]
      exact hp.1
    · show ¬ q1 ∈ ds
      rw [← h1]
      simpa using hp.2
  · rintro ⟨d0, hmem, hds, hq2⟩
    apply List.mem_map.mpr
    refine ⟨(q1, d0), ?_, ?_⟩
    · rw [List.mem_filter]
      exact ⟨hmem, by simpa using hds⟩
    · exact congrArg (fun z => (q1, z)) hq2.symm

theorem strip_keysNodup {st : NetState} {ds du : List String}
    (h : keysNodup st.servers) : keysNodup (stripState st ds du).servers := by
  unfold keysNodup at h ⊢
  rw [strip_servers_def, List.map_map]
  have he : ((st.servers.filter (fun p => decide (¬ p.1 ∈ ds))).map
      (Prod.fst ∘ fun p => (p.1, cutUsers du p.2))) =
      (st.servers.filter (fun p => decide (¬ p.1 ∈ ds))).map Prod.fst := by
    apply map_congr_fn
    intro p _
    rfl
  rw [he]
  exact h.sublist (List.Sublist.map Prod.fst (List.filter_sublist _))

theorem strip_rankOk {rank : String → Nat} {st : NetState} {ds du : List String}
    (h : rankOk rank st.servers) : rankOk rank (stripState st ds du).servers := by
  intro p hp q hq
  obtain ⟨d0, hmem, _, h2⟩ := strip_servers_mem.mp hp
  rw [h2, cutUsers_uplink] at hq
  exact h (p.1, d0) hmem q hq

theorem strip_serverUsersKnown {st : NetState} {ds du : List String}
    (h : serverUsersKnown st) : serverUsersKnown (stripState st ds du) := by
  intro p hp u hu
  obtain ⟨d0, hmem, _, h2⟩ := strip_servers_mem.mp hp
  rw [h2] at hu
  unfold cutUsers at hu
  rw [List.mem_filter] at hu
  have hdu : ¬ u ∈ du := by simpa using hu.2
  rw [strip_users_alookup, if_neg hdu]
  exact h (p.1, d0) hmem u hu.1

theorem strip_uniqueHome {st : NetState} {ds du : List String}
    (h : uniqueHome st) : uniqueHome (stripState st ds du) := by
  intro p hp q hq u hup huq
  obtain ⟨d0, hmem, _, h2⟩ := strip_servers_mem.mp hp
  obtain ⟨e0, hmem', _, h2'⟩ := strip_servers_mem.mp hq
  rw [h2] at hup
  rw [h2'] at huq
  unfold cutUsers at hup huq
  rw [List.mem_filter] at hup huq
  exact h (p.1, d0) hmem (q.1, e0) hmem' u hup.1 huq.1

theorem strip_serverUsersNodup {st : NetState} {ds du : List String}
    (h : serverUsersNodup st) : serverUsersNodup (stripState st ds du) := by
  intro p hp
  obtain ⟨d0, hmem, _, h2⟩ := strip_servers_mem.mp hp
  rw [h2]
  exact (h (p.1, d0) hmem).filter _

theorem strip_nil (st : NetState) : stripState st [] [] = st := by
  obtain ⟨sid, upl, S, U, C, ic, isv⟩ := st
  simp only [stripState, NetState.mk.injEq, true_and, and_true]
  refine ⟨?_, ?_, ?_⟩
  · rw [List.filter_eq_self.mpr (by simp)]
    apply map_eq_self
    intro p _
    have : cutUsers [] p.2 = p.2 := by
      unfold cutUsers
      rw [List.filter_eq_self.mpr (by simp)]
    rw [this]
  · exact List.filter_eq_self.mpr (by simp)
  · apply map_eq_self
    intro p _
    have : cutChan [] p.2 = p.2 := by
      unfold cutChan
      rw [List.filter_eq_self.mpr (by simp)]
    rw [this]

theorem removeClient_eq_strip (st : NetState) (u : String) :
    removeClient st u = stripState st [] [u] := by
  obtain ⟨sid, upl, S, U, C, ic, isv⟩ := st
  simp only [removeClient, stripState, NetState.mk.injEq, true_and, and_true]
  refine ⟨?_, ?_, ?_⟩
  · rw [List.filter_eq_self.mpr (by simp)]
    apply map_congr_fn
    intro p _
    have hfe : p.2.users.filter (fun x => x ≠ u) =
        p.2.users.filter (fun x => decide (¬ x ∈ [u])) :=
      List.filter_congr (fun a _ => by simp)
    rw [hfe]
    rfl
  · exact List.filter_congr (fun a _ => by simp)
  · apply map_congr_fn
    intro p _
    have hfe : p.2.users.filter (fun x => x ≠ u) =
        p.2.users.filter (fun x => decide (¬ x ∈ [u])) :=
      List.filter_congr (fun a _ => by simp)
    rw [hfe]
    rfl

/-! ## Claim C3: resolution is stable under stripping -/

theorem find_name_none {st : NetState} {ds du : List String} {nm : String}
    (h : st.servers.find? (fun p => strToLower p.2.name = nm) = none) :
    (stripState st ds du).servers.find? (fun p => strToLower p.2.name = nm) = none := by
  rw [List.find?_eq_none] at h ⊢
  intro q hq
  obtain ⟨d0, hmem, _, h2⟩ := strip_servers_mem.mp hq
  have := h (q.1, d0) hmem
  simpa [h2, cutUsers_name] using this

theorem find_name_strip {ds du : List String} {nm : String} :
    ∀ {l : List (String × ServerData)} {p : String × ServerData},
      l.find? (fun q => strToLower q.2.name = nm) = some p → ¬ p.1 ∈ ds →
      ((l.filter (fun q => decide (¬ q.1 ∈ ds))).map
          (fun q => (q.1, cutUsers du q.2))).find?
          (fun q => strToLower q.2.name = nm) = some (p.1, cutUsers du p.2) := by
  intro l
  induction l with
  | nil => intro p h; simp at h
  | cons x rest ih =>
    intro p h hds
    by_cases hx : strToLower x.2.name = nm
    · rw [List.find?_cons_of_pos _ (by simpa using hx)] at h
      have hxp : x = p := by simpa using h
      subst hxp
      rw [List.filter_cons_of_pos (by simpa using hds), List.map_cons,
        List.find?_cons_of_pos _ (by simpa [cutUsers_name] using hx)]
    · rw [List.find?_cons_of_neg _ (by simpa using hx)] at h
      by_cases hxd : x.1 ∈ ds
      · rw [List.filter_cons_of_neg (by simpa using hxd)]
        exact ih h hds
      · rw [List.filter_cons_of_pos (by simpa using hxd), List.map_cons,
          List.find?_cons_of_neg _ (by simpa [cutUsers_name] using hx)]
        exact ih h hds

theorem resolve_strip {st : NetState} {ds du : List String} {c : String}
    (h : resolveSID st c = c) (hlk : (alookup c st.servers).isSome = true)
    (hds : ¬ c ∈ ds) :
    resolveSID (stripState st ds du) c = c := by
  simp only [resolveSID] at h ⊢
  by_cases hA : (alookup (strToLower c) st.servers).isSome = true
  · rw [if_pos hA] at h
    have hA' : (alookup (strToLower c) (stripState st ds du).servers).isSome = true := by
      rw [h, strip_servers_alookup, if_neg hds]
      obtain ⟨d, hd⟩ := Option.isSome_iff_exists.mp hlk
      simp [hd]
    rw [if_pos hA']
    exact h
  · rw [if_neg hA] at h
    have hA' : ¬ (alookup (strToLower c) (stripState st ds du).servers).isSome = true := by
      rw [strip_servers_alookup]
      by_cases hin : strToLower c ∈ ds
      · simp [hin]
      · have hA2 : alookup (strToLower c) st.servers = none := by
          cases hopt : alookup (strToLower c) st.servers with
          | none => rfl
          | some d => exact absurd (by simp [hopt]) hA
        rw [if_neg hin, hA2]
        simp
    rw [if_neg hA']
    cases hf : st.servers.find? (fun p => strToLower p.2.name = strToLower c) with
    | none =>
      have := @find_name_none st ds du _ hf
      rw [this]
    | some p =>
      rw [hf] at h
      have hp1 : p.1 = c := h
      have hfind := @find_name_strip ds du _ _ _ hf (hp1 ▸ hds)
      rw [← strip_servers_def] at hfind
      rw [hfind]
      exact hp1

/-! ## Claim C3: the descendant relation -/

theorem Desc_sub {A B : List (String × ServerData)} {r : String}
    (hsub : ∀ k d, alookup k A = some d →
      ∃ d', alookup k B = some d' ∧ d'.uplink = d.uplink) :
    ∀ {s}, Desc A r s → Desc B r s := by
  intro s h
  induction h with
  | direct hlk hup =>
    obtain ⟨d', hd', hupe⟩ := hsub _ _ hlk
    exact .direct hd' (hupe.trans hup)
  | step hlk hup hdesc ih =>
    obtain ⟨d', hd', hupe⟩ := hsub _ _ hlk
    exact .step hd' (hupe.trans hup) ih

theorem Desc_strip_to {st : NetState} {ds du : List String} {r s : String}
    (h : Desc (stripState st ds du).servers r s) : Desc st.servers r s := by
  refine Desc_sub (fun k d hk => ?_) h
  rw [strip_servers_alookup] at hk
  by_cases hkd : k ∈ ds
  · rw [if_pos hkd] at hk
    simp at hk
  · rw [if_neg hkd] at hk
    cases hopt : alookup k st.servers with
    | none => rw [hopt] at hk; simp at hk
    | some d0 =>
      rw [hopt] at hk
      simp only [Option.map_some'] at hk
      refine ⟨d0, rfl, ?_⟩
      have hde : cutUsers du d0 = d := Option.some.inj hk
      rw [← hde]
      rfl

theorem Desc_to_strip {st : NetState} {ds du : List String} {c : String}
    (havoid : ∀ x, Desc st.servers c x → ¬ x ∈ ds) :
    ∀ {s}, Desc st.servers c s → Desc (stripState st ds du).servers c s := by
  intro s h
  induction h with
  | direct hlk hup =>
    rename_i s' d
    have hs : ¬ s' ∈ ds := havoid s' (.direct hlk hup)
    refine Desc.direct (d := cutUsers du d) ?_ hup
    rw [strip_servers_alookup, if_neg hs, hlk]
    rfl
  | step hlk hup hdesc ih =>
    rename_i s' p d
    have hs : ¬ s' ∈ ds := havoid s' (.step hlk hup hdesc)
    refine Desc.step (d := cutUsers du d) ?_ hup ih
    rw [strip_servers_alookup, if_neg hs, hlk]
    rfl

theorem Desc_rank {rank : String → Nat} {A : List (String × ServerData)} {r : String}
    (hrk : rankOk rank A) : ∀ {s}, Desc A r s → rank s < rank r := by
  intro s h
  induction h with
  | direct hlk hup =>
    rename_i s' d
    exact hrk (s', d) (alookup_mem hlk) r (by simp [hup])
  | step hlk hup hdesc ih =>
    rename_i s' p d
    exact (hrk (s', d) (alookup_mem hlk) p (by simp [hup])).trans ih

theorem Desc_irrefl {rank : String → Nat} {A : List (String × ServerData)} {t : String}
    (hrk : rankOk rank A) : ¬ Desc A t t :=
  fun h => Nat.lt_irrefl _ (Desc_rank hrk h)

theorem Desc_comp {A : List (String × ServerData)} {r m : String}
    (h1 : Desc A r m) : ∀ {s}, Desc A m s → Desc A r s := by
  intro s h
  induction h with
  | direct hlk hup => exact .step hlk hup h1
  | step hlk hup hdesc ih => exact .step hlk hup ih

theorem Desc_decompose {A : List (String × ServerData)} {t : String} :
    ∀ {s}, Desc A t s →
      ∃ c dc, alookup c A = some dc ∧ dc.uplink = some t ∧ (s = c ∨ Desc A c s) := by
  intro s h
  induction h with
  | direct hlk hup =>
    rename_i s' d
    exact ⟨s', d, hlk, hup, Or.inl rfl⟩
  | step hlk hup hdesc ih =>
    rename_i s' p d
    obtain ⟨c, dc, hcl, hcu, hcase⟩ := ih
    refine ⟨c, dc, hcl, hcu, Or.inr ?_⟩
    rcases hcase with he | hd
    · exact .direct hlk (he ▸ hup)
    · exact .step hlk hup hd

theorem Desc_of_child {A : List (String × ServerData)} {t c : String} {dc : ServerData}
    (hc : alookup c A = some dc) (hu : dc.uplink = some t) :
    ∀ {x}, (x = c ∨ Desc A c x) → Desc A t x := by
  intro x hx
  rcases hx with rfl | hd
  · exact .direct hc hu
  · exact Desc_comp (.direct hc hu) hd

theorem Desc_chain {A : List (String × ServerData)} {c c' : String} :
    ∀ {s}, Desc A c s → Desc A c' s → c = c' ∨ Desc A c' c ∨ Desc A c c' := by
  intro s h1
  induction h1 with
  | direct hlk hup =>
    rename_i s' d
    intro h2
    cases h2 with
    | direct hlk' hup' =>
      rename_i d'
      rw [hlk] at hlk'
      have hd : d = d' := Option.some.inj hlk'
      rw [← hd] at hup'
      rw [hup] at hup'
      exact Or.inl (Option.some.inj hup')
    | step hlk' hup' hdesc' =>
      rename_i p' d'
      rw [hlk] at hlk'
      have hd : d = d' := Option.some.inj hlk'
      rw [← hd, hup] at hup'
      have hp : c = p' := Option.some.inj hup'
      exact Or.inr (Or.inl (hp ▸ hdesc'))
  | step hlk hup hdesc ih =>
    rename_i s' p d
    intro h2
    cases h2 with
    | direct hlk' hup' =>
      rename_i d'
      rw [hlk] at hlk'
      have hd : d = d' := Option.some.inj hlk'
      rw [← hd, hup] at hup'
      have hp : p = c' := Option.some.inj hup'
      exact Or.inr (Or.inr (hp ▸ hdesc))
    | step hlk' hup' hdesc' =>
      rename_i p2 d'
      rw [hlk] at hlk'
      have hd : d = d' := Option.some.inj hlk'
      rw [← hd, hup] at hup'
      have hp : p = p2 := Option.some.inj hup'
      exact ih (hp ▸ hdesc')

theorem sibling_no_desc {rank : String → Nat} {A : List (String × ServerData)}
    {t c c' : String} {dc dc' : ServerData} (hrk : rankOk rank A)
    (hc : alookup c A = some dc) (hcu : dc.uplink = some t)
    (hc' : alookup c' A = some dc') (hcu' : dc'.uplink = some t) :
    ¬ Desc A c' c := by
  intro h
  cases h with
  | direct hlk hup =>
    rename_i d
    rw [hc] at hlk
    have hd : dc = d := Option.some.inj hlk
    rw [← hd, hcu] at hup
    have ht : t = c' := Option.some.inj hup
    have h1 : rank c' < rank t := hrk (c', dc') (alookup_mem hc') t (by simp [hcu'])
    rw [ht] at h1
    exact Nat.lt_irrefl _ h1
  | step hlk hup hdesc =>
    rename_i p d
    rw [hc] at hlk
    have hd : dc = d := Option.some.inj hlk
    rw [← hd, hcu] at hup
    have ht : t = p := Option.some.inj hup
    have h1 : rank t < rank c' := Desc_rank hrk (ht ▸ hdesc)
    have h2 : rank c' < rank t := hrk (c', dc') (alookup_mem hc') t (by simp [hcu'])
    exact Nat.lt_irrefl _ (h1.trans h2)

theorem sibling_disjoint {rank : String → Nat} {A : List (String × ServerData)}
    {t c c' : String} {dc dc' : ServerData} (hrk : rankOk rank A)
    (hc : alookup c A = some dc) (hcu : dc.uplink = some t)
    (hc' : alookup c' A = some dc') (hcu' : dc'.uplink = some t)
    (hne : c ≠ c') :
    ∀ x, (x = c ∨ Desc A c x) → (x = c' ∨ Desc A c' x) → False := by
  intro x hx hx'
  rcases hx with rfl | hd
  · rcases hx' with he | hd'
    · exact hne he
    · exact sibling_no_desc hrk hc hcu hc' hcu' hd'
  · rcases hx' with rfl | hd'
    · exact sibling_no_desc hrk hc' hcu' hc hcu hd
    · rcases Desc_chain hd hd' with he | h1 | h2
      · exact hne he
      · exact sibling_no_desc hrk hc hcu hc' hcu' h1
      · exact sibling_no_desc hrk hc' hcu' hc hcu h2

/-! ## Claim C3: translating removed users across stripping -/

theorem RemovedUser_strip_iff {st : NetState} {ds du : List String} {c : String}
    (havoid : ∀ x, (x = c ∨ Desc st.servers c x) → ¬ x ∈ ds)
    (hdu : ∀ u ∈ du, ∃ s, s ∈ ds ∧ ∃ d, alookup s st.servers = some d ∧ u ∈ d.users)
    (huh : uniqueHome st) :
    ∀ u, RemovedUser (stripState st ds du).servers c u ↔ RemovedUser st.servers c u := by
  intro u
  constructor
  · rintro ⟨x, dx, hxl, hxc, hu⟩
    rw [strip_servers_alookup] at hxl
    by_cases hxds : x ∈ ds
    · rw [if_pos hxds] at hxl; simp at hxl
    · rw [if_neg hxds] at hxl
      cases hopt : alookup x st.servers with
      | none => rw [hopt] at hxl; simp at hxl
      | some d0 =>
        rw [hopt] at hxl
        simp only [Option.map_some'] at hxl
        have hdx : cutUsers du d0 = dx := Option.some.inj hxl
        rw [← hdx] at hu
        unfold cutUsers at hu
        rw [List.mem_filter] at hu
        refine ⟨x, d0, hopt, ?_, hu.1⟩
        rcases hxc with he | hd
        · exact Or.inl he
        · exact Or.inr (Desc_strip_to hd)
  · rintro ⟨x, d0, hxl, hxc, hu⟩
    have hxds : ¬ x ∈ ds := havoid x hxc
    have hudu : ¬ u ∈ du := by
      intro hmem
      obtain ⟨s', hs'ds, d', hs'l, hu'⟩ := hdu u hmem
      have hx : x = s' :=
        huh (x, d0) (alookup_mem hxl) (s', d') (alookup_mem hs'l) u hu hu'
      exact hxds (hx ▸ hs'ds)
    refine ⟨x, cutUsers du d0, ?_, ?_, ?_⟩
    · rw [strip_servers_alookup, if_neg hxds, hxl]
      rfl
    · rcases hxc with he | hd
      · exact Or.inl he
      · exact Or.inr (Desc_to_strip (fun y hy => havoid y (Or.inr hy)) hd)
    · unfold cutUsers
      rw [List.mem_filter]
      exact ⟨hu, by simpa using hudu⟩

/-! ## Claim C3: the child loop removes exactly the sibling subtrees -/

theorem squit_kids_spec (fuel : Nat) (rank : String → Nat)
    (hrec : ∀ (st' : NetState) (target' a0' : String) (rest' : List String),
      resolveSID st' a0' = target' → MasterHyp rank st' target' → rank target' < fuel →
      SquitPost st' target' (squitFuel fuel st' (a0' :: rest')))
    (st : NetState) (target : String)
    (hnd : keysNodup st.servers) (hrk : rankOk rank st.servers)
    (hsk : serverUsersKnown st) (huh : uniqueHome st) (hsn : serverUsersNodup st)
    (hrs : sidResolvesSelf st)
    (hrsid : rank target ≤ rank st.sid) (hrupl : rank target ≤ rank st.uplink)
    (hfuel : rank target ≤ fuel) :
    ∀ (L : List (String × ServerData)) (ds du : List String),
      (∀ p ∈ L, alookup p.1 st.servers = some p.2) →
      ((L.map Prod.fst).Nodup) →
      (∀ x ∈ ds, ∃ c' dc', alookup c' st.servers = some dc' ∧
        dc'.uplink = some target ∧ (x = c' ∨ Desc st.servers c' x) ∧
        ∀ q ∈ L, q.1 ≠ c') →
      (∀ u ∈ du, ∃ s, s ∈ ds ∧ ∃ d, alookup s st.servers = some d ∧ u ∈ d.users) →
      ∃ nus nss : List String,
        squitKidsWith (fun s a => squitFuel fuel s a) target (stripState st ds du) L =
          .ok (stripState st (ds ++ nss) (du ++ nus)) (nus, nss) ∧
        (∀ x, x ∈ nss ↔ ∃ c dc, (c, dc) ∈ L ∧ dc.uplink = some target ∧
          (x = c ∨ Desc st.servers c x)) ∧
        nss.Nodup ∧
        (∀ u, u ∈ nus ↔ ∃ x, x ∈ nss ∧ ∃ d, alookup x st.servers = some d ∧ u ∈ d.users) := by
  intro L
  induction L with
  | nil =>
    intro ds du _ _ _ _
    refine ⟨[], [], ?_, ?_, ?_, ?_⟩
    · simp [squitKidsWith]
    · simp
    · simp
    · simp
  | cons p rest ih =>
    obtain ⟨s, d⟩ := p
    intro ds du hLs hLnd hds hdu
    by_cases huplink : d.uplink = some target
    · -- s is a child of the split target: recurse into it first
      have hsl : alookup s st.servers = some d := hLs (s, d) (List.mem_cons_self _ _)
      have havoid : ∀ x, (x = s ∨ Desc st.servers s x) → ¬ x ∈ ds := by
        intro x hx hxds
        obtain ⟨c', dc', hc'l, hc'u, hx', hnotL⟩ := hds x hxds
        have hsc' : s ≠ c' := hnotL (s, d) (List.mem_cons_self _ _)
        exact sibling_disjoint hrk hsl huplink hc'l hc'u hsc' x hx hx'
      have hsds : ¬ s ∈ ds := havoid s (Or.inl rfl)
      have hslk : alookup s (stripState st ds du).servers = some (cutUsers du d) := by
        rw [strip_servers_alookup, if_neg hsds, hsl]
        rfl
      have hress : resolveSID (stripState st ds du) s = s :=
        resolve_strip (hrs (s, d) (alookup_mem hsl)) (by simp [hsl]) hsds
      have hranks : rank s < rank target :=
        hrk (s, d) (alookup_mem hsl) target (by simp [huplink])
      have hMH : MasterHyp rank (stripState st ds du) s := by
        refine ⟨strip_keysNodup hnd, strip_rankOk hrk, strip_serverUsersKnown hsk,
          strip_uniqueHome huh, strip_serverUsersNodup hsn, ?_, by simp [hslk],
          ?_, ?_, ?_, ?_⟩
        · intro q hq
          obtain ⟨d0, hmem, hqds, _⟩ := strip_servers_mem.mp hq
          exact resolve_strip (hrs (q.1, d0) hmem) (by simp [mem_alookup hnd hmem]) hqds
        · rw [strip_sid]
          intro he
          rw [he] at hranks
          exact Nat.lt_irrefl _ (Nat.lt_of_lt_of_le hranks hrsid)
        · rw [strip_uplink]
          intro he
          rw [he] at hranks
          exact Nat.lt_irrefl _ (Nat.lt_of_lt_of_le hranks hrupl)
        · rw [strip_sid]
          exact Nat.le_of_lt (Nat.lt_of_lt_of_le hranks hrsid)
        · rw [strip_uplink]
          exact Nat.le_of_lt (Nat.lt_of_lt_of_le hranks hrupl)
      obtain ⟨pay, hpeq, hpaff, hpnd, hpus⟩ :=
        hrec (stripState st ds du) s s ["0", squitAutoMsg s] hress hMH
          (Nat.lt_of_lt_of_le hranks hfuel)
      rw [strip_strip] at hpeq
      have hDpos : ∀ x, Desc (stripState st ds du).servers s x ↔ Desc st.servers s x :=
        fun x => ⟨Desc_strip_to, Desc_to_strip (fun y hy => havoid y (Or.inr hy))⟩
      have hpaff' : ∀ x, x ∈ pay.affectedServers ↔ (x = s ∨ Desc st.servers s x) := by
        intro x
        rw [hpaff x]
        exact or_congr_right (hDpos x)
      have hpus' : ∀ u, u ∈ pay.users ↔ RemovedUser st.servers s u := by
        intro u
        rw [hpus u]
        exact RemovedUser_strip_iff havoid hdu huh u
      -- hypotheses for the tail of the loop
      have hLs' : ∀ q ∈ rest, alookup q.1 st.servers = some q.2 :=
        fun q hq => hLs q (List.mem_cons_of_mem _ hq)
      have hLnd2 : (s :: rest.map Prod.fst).Nodup := hLnd
      have hLnd' : (rest.map Prod.fst).Nodup := (List.nodup_cons.mp hLnd2).2
      have hsrest : ∀ q ∈ rest, q.1 ≠ s := by
        intro q hq he
        exact (List.nodup_cons.mp hLnd2).1 (List.mem_map.mpr ⟨q, hq, he⟩)
      have hds' : ∀ x ∈ ds ++ pay.affectedServers,
          ∃ c' dc', alookup c' st.servers = some dc' ∧ dc'.uplink = some target ∧
            (x = c' ∨ Desc st.servers c' x) ∧ ∀ q ∈ rest, q.1 ≠ c' := by
        intro x hx
        rcases List.mem_append.mp hx with hx1 | hx2
        · obtain ⟨c', dc', h1, h2, h3, h4⟩ := hds x hx1
          exact ⟨c', dc', h1, h2, h3, fun q hq => h4 q (List.mem_cons_of_mem _ hq)⟩
        · exact ⟨s, d, hsl, huplink, (hpaff' x).mp hx2, hsrest⟩
      have hdu' : ∀ u ∈ du ++ pay.users,
          ∃ s', s' ∈ ds ++ pay.affectedServers ∧
            ∃ d', alookup s' st.servers = some d' ∧ u ∈ d'.users := by
        intro u hu
        rcases List.mem_append.mp hu with hu1 | hu2
        · obtain ⟨s', h1, d', h2, h3⟩ := hdu u hu1
          exact ⟨s', List.mem_append_left _ h1, d', h2, h3⟩
        · obtain ⟨x, dx, hxl, hxc, hxu⟩ := (hpus' u).mp hu2
          exact ⟨x, List.mem_append_right _ ((hpaff' x).mpr hxc), dx, hxl, hxu⟩
      obtain ⟨nus', nss', hkeq, hnss', hnd', hnus'⟩ :=
        ih (ds ++ pay.affectedServers) (du ++ pay.users) hLs' hLnd' hds' hdu'
      refine ⟨pay.users ++ nus', pay.affectedServers ++ nss', ?_, ?_, ?_, ?_⟩
      · -- the computation
        simp only [squitKidsWith]
        rw [if_pos huplink]
        simp only [hpeq, hkeq]
        rw [List.append_assoc, List.append_assoc]
      · -- affected servers of the whole loop
        intro x
        constructor
        · intro hx
          rcases List.mem_append.mp hx with hx1 | hx2
          · exact ⟨s, d, List.mem_cons_self _ _, huplink, (hpaff' x).mp hx1⟩
          · obtain ⟨c, dc, h1, h2, h3⟩ := (hnss' x).mp hx2
            exact ⟨c, dc, List.mem_cons_of_mem _ h1, h2, h3⟩
        · rintro ⟨c, dc, hcL, hcu, hxc⟩
          rcases List.mem_cons.mp hcL with he | hmem
          · have hcs : c = s := congrArg Prod.fst he
            have hdc : dc = d := congrArg Prod.snd he
            subst hcs
            apply List.mem_append_left
            exact (hpaff' x).mpr hxc
          · apply List.mem_append_right
            exact (hnss' x).mpr ⟨c, dc, hmem, hcu, hxc⟩
      · -- no duplicates
        refine List.Nodup.append hpnd hnd' ?_
        intro x hx1 hx2
        obtain ⟨c, dc, hcL, hcu, hxc⟩ := (hnss' x).mp hx2
        have hcl : alookup c st.servers = some dc := hLs' (c, dc) hcL
        have hcs : c ≠ s := hsrest (c, dc) hcL
        exact sibling_disjoint hrk hcl hcu hsl huplink hcs x hxc ((hpaff' x).mp hx1)
      · -- affected users of the whole loop
        intro u
        constructor
        · intro hu
          rcases List.mem_append.mp hu with hu1 | hu2
          · obtain ⟨x, dx, hxl, hxc, hxu⟩ := (hpus' u).mp hu1
            exact ⟨x, List.mem_append_left _ ((hpaff' x).mpr hxc), dx, hxl, hxu⟩
          · obtain ⟨x, hx, dx, hxl, hxu⟩ := (hnus' u).mp hu2
            exact ⟨x, List.mem_append_right _ hx, dx, hxl, hxu⟩
        · rintro ⟨x, hx, dx, hxl, hxu⟩
          rcases List.mem_append.mp hx with hx1 | hx2
          · apply List.mem_append_left
            exact (hpus' u).mpr ⟨x, dx, hxl, (hpaff' x).mp hx1, hxu⟩
          · apply List.mem_append_right
            exact (hnus' u).mpr ⟨x, hx2, dx, hxl, hxu⟩
    · -- s is not a child: skip it
      have hLs' : ∀ q ∈ rest, alookup q.1 st.servers = some q.2 :=
        fun q hq => hLs q (List.mem_cons_of_mem _ hq)
      have hLnd2 : (s :: rest.map Prod.fst).Nodup := hLnd
      have hLnd' : (rest.map Prod.fst).Nodup := (List.nodup_cons.mp hLnd2).2
      have hds' : ∀ x ∈ ds, ∃ c' dc', alookup c' st.servers = some dc' ∧
          dc'.uplink = some target ∧ (x = c' ∨ Desc st.servers c' x) ∧
          ∀ q ∈ rest, q.1 ≠ c' := by
        intro x hx
        obtain ⟨c', dc', h1, h2, h3, h4⟩ := hds x hx
        exact ⟨c', dc', h1, h2, h3, fun q hq => h4 q (List.mem_cons_of_mem _ hq)⟩
      obtain ⟨nus', nss', hkeq, hnss', hnd', hnus'⟩ := ih ds du hLs' hLnd' hds' hdu
      refine ⟨nus', nss', ?_, ?_, hnd', hnus'⟩
      · simp only [squitKidsWith]
        rw [if_neg huplink]
        exact hkeq
      · intro x
        rw [hnss' x]
        constructor
        · rintro ⟨c, dc, h1, h2, h3⟩
          exact ⟨c, dc, List.mem_cons_of_mem _ h1, h2, h3⟩
        · rintro ⟨c, dc, h1, h2, h3⟩
          rcases List.mem_cons.mp h1 with he | hmem
          · have hcs : c = s := congrArg Prod.fst he
            have hdc : dc = d := congrArg Prod.snd he
            subst hcs
            rw [hdc] at h2
            exact absurd h2 huplink
          · exact ⟨c, dc, hmem, h2, h3⟩

/-! ## Claim C3: the user-removal loop in strip form -/

theorem userLoop_strip (oldCh : List (String × ChannelData)) (st : NetState)
    (A : List String) :
    ∀ (us B : List String) (acc : List (String × List String)),
      us.Nodup → (∀ u ∈ us, (alookup u st.users).isSome = true) →
      (∀ u ∈ us, ¬ u ∈ B) →
      ∃ nicks, userLoop oldCh (stripState st A B) acc us =
        .ok (stripState st A (B ++ us)) nicks := by
  intro us
  induction us with
  | nil =>
    intro B acc _ _ _
    refine ⟨acc, ?_⟩
    rw [List.append_nil]
    simp [userLoop]
  | cons u usr ihu =>
    intro B acc hnodup hlk hnB
    have hub : ¬ u ∈ B := hnB u (List.mem_cons_self _ _)
    obtain ⟨ud, hud⟩ :=
      Option.isSome_iff_exists.mp (hlk u (List.mem_cons_self _ _))
    have hlkstrip : alookup u (stripState st A B).users = some ud := by
      rw [strip_users_alookup, if_neg hub, hud]
    have hrc : removeClient (stripState st A B) u = stripState st A (B ++ [u]) := by
      rw [removeClient_eq_strip, strip_strip, List.append_nil]
    have hnd' : usr.Nodup := (List.nodup_cons.mp hnodup).2
    have hlk' : ∀ v ∈ usr, (alookup v st.users).isSome = true :=
      fun v hv => hlk v (List.mem_cons_of_mem _ hv)
    have hnB' : ∀ v ∈ usr, ¬ v ∈ B ++ [u] := by
      intro v hv hmem
      rcases List.mem_append.mp hmem with h1 | h2
      · exact hnB v (List.mem_cons_of_mem _ hv) h1
      · have : v = u := by simpa using h2
        exact (List.nodup_cons.mp hnodup).1 (this ▸ hv)
    obtain ⟨nicks, hih⟩ := ihu (B ++ [u])
      (oldCh.foldl (fun m p =>
        if u ∈ ((alookup p.1 (stripState st A B).channels).getD p.2).users
        then nickAdd m p.1 ud.nick else m) acc)
      hnd' hlk' hnB'
    refine ⟨nicks, ?_⟩
    simp only [userLoop, hlkstrip, hrc]
    rw [List.append_assoc] at hih
    exact hih

/-! ## Claim C3: deleting the split target from a stripped state -/

theorem strip_erase_servers (nss nus : List String) (target : String) :
    ∀ (l : List (String × ServerData)),
      ((l.filter (fun p => decide (¬ p.1 ∈ nss))).map
          (fun p => (p.1, cutUsers nus p.2))).filter (fun p => p.1 ≠ target) =
        (l.filter (fun p => decide (¬ p.1 ∈ nss ++ [target]))).map
          (fun p => (p.1, cutUsers nus p.2)) := by
  intro l
  induction l with
  | nil => rfl
  | cons x rest ihl =>
    by_cases h1 : x.1 ∈ nss
    · rw [List.filter_cons_of_neg (by simpa using h1),
        List.filter_cons_of_neg (by simp [h1]), ihl]
    · by_cases h2 : x.1 = target
      · rw [List.filter_cons_of_pos (by simpa using h1), List.map_cons,
          List.filter_cons_of_neg (by simp [h2]),
          List.filter_cons_of_neg (by simp [h1, h2]), ihl]
      · rw [List.filter_cons_of_pos (by simpa using h1), List.map_cons,
          List.filter_cons_of_pos (by simp [h2]),
          List.filter_cons_of_pos (by simp [h1, h2]), List.map_cons, ihl]

theorem strip_erase_state (st : NetState) (nss nus : List String) (target : String) :
    { stripState st nss nus with
        servers := (stripState st nss nus).servers.filter (fun p => p.1 ≠ target) } =
      stripState st (nss ++ [target]) nus := by
  obtain ⟨sid, upl, S, U, C, ic, isv⟩ := st
  simp only [stripState, NetState.mk.injEq, true_and, and_true]
  exact strip_erase_servers nss nus target S

theorem strip_perm_congr (st : NetState) {A A' : List String} (B : List String)
    (h : ∀ x, x ∈ A ↔ x ∈ A') : stripState st A B = stripState st A' B := by
  obtain ⟨sid, upl, S, U, C, ic, isv⟩ := st
  simp only [stripState, NetState.mk.injEq, true_and, and_true]
  refine congrArg _ (List.filter_congr ?_)
  intro p _
  exact decide_eq_decide.mpr (not_congr (h p.1))

/-! ## Claim C3: the master exactness theorem for the cascade -/

theorem squit_master :
    ∀ (fuel : Nat) (rank : String → Nat) (st : NetState)
      (target a0 : String) (rest : List String),
      resolveSID st a0 = target → MasterHyp rank st target → rank target < fuel →
      SquitPost st target (squitFuel fuel st (a0 :: rest)) := by
  intro fuel
  induction fuel with
  | zero =>
    intro rank st target a0 rest _ _ hf
    exact absurd hf (Nat.not_lt_zero _)
  | succ fuel ih =>
    intro rank st target a0 rest hres hMH hfuel
    obtain ⟨hnd, hrk, hsk, huh, hsn, hrs, hknown, htsid, htupl, hrsid, hrupl⟩ := hMH
    obtain ⟨nus, nss, hkeq, hnss, hnssnd, hnus⟩ :=
      squit_kids_spec fuel rank
        (fun st' t' a' r' h1 h2 h3 => ih rank st' t' a' r' h1 h2 h3)
        st target hnd hrk hsk huh hsn hrs hrsid hrupl (Nat.le_of_lt_succ hfuel)
        st.servers [] []
        (fun p hp => mem_alookup hnd hp) hnd
        (fun x hx => absurd hx (List.not_mem_nil x))
        (fun u hu => absurd hu (List.not_mem_nil u))
    rw [strip_nil] at hkeq
    simp only [List.nil_append] at hkeq
    have hdesc_iff : ∀ x, x ∈ nss ↔ Desc st.servers target x := by
      intro x
      rw [hnss x]
      constructor
      · rintro ⟨c, dc, hcL, hcu, hxc⟩
        exact Desc_of_child (mem_alookup hnd hcL) hcu hxc
      · intro hd
        obtain ⟨c, dc, hcl, hcu, hxc⟩ := Desc_decompose hd
        exact ⟨c, dc, alookup_mem hcl, hcu, hxc⟩
    have hts : ¬ target ∈ nss := by
      intro hmem
      exact Desc_irrefl hrk ((hdesc_iff target).mp hmem)
    obtain ⟨dt, hdt⟩ := Option.isSome_iff_exists.mp hknown
    have hlt1 : alookup target (stripState st nss nus).servers =
        some (cutUsers nus dt) := by
      rw [strip_servers_alookup, if_neg hts, hdt]
      rfl
    have hdisj : ∀ u ∈ dt.users, ¬ u ∈ nus := by
      intro u hu hmem
      obtain ⟨x, hx, dx, hxl, hxu⟩ := (hnus u).mp hmem
      have hxt : x = target :=
        huh (x, dx) (alookup_mem hxl) (target, dt) (alookup_mem hdt) u hxu hu
      exact hts (hxt ▸ hx)
    have hcut : cutUsers nus dt = dt := by
      unfold cutUsers
      rw [List.filter_eq_self.mpr (fun u hu => by simpa using hdisj u hu)]
    obtain ⟨nicks, hul⟩ :=
      userLoop_strip st.channels st nss dt.users nus []
        (hsn (target, dt) (alookup_mem hdt))
        (fun u hu => hsk (target, dt) (alookup_mem hdt) u hu)
        hdisj
    have hlt2 : alookup target (stripState st nss (nus ++ dt.users)).servers =
        some (cutUsers (nus ++ dt.users) dt) := by
      rw [strip_servers_alookup, if_neg hts, hdt]
      rfl
    have hnotor : ¬ (target = st.sid ∨ target = st.uplink) := by
      rintro (h | h)
      · exact htsid h
      · exact htupl h
    have hnn : ¬ ((alookup target st.servers).isNone = true) := by
      simp [hdt]
    have hperm : ∀ x, x ∈ nss ++ [target] ↔ x ∈ target :: nss := by
      intro x
      simp [List.mem_append, or_comm]
    have hcomp : squitFuel (fuel + 1) st (a0 :: rest) =
        .ok (stripState st (target :: nss) (nus ++ dt.users))
          (some { target := target, users := nus ++ dt.users,
                  sname := (cutUsers (nus ++ dt.users) dt).name,
                  uplink := (cutUsers (nus ++ dt.users) dt).uplink,
                  nicks := nicks,
                  serverdata := cutUsers (nus ++ dt.users) dt,
                  channeldata := st.channels,
                  affectedServers := target :: nss }) := by
      simp only [squitFuel]
      rw [hres]
      rw [if_neg hnotor]
      rw [if_neg hnn]
      simp only [hkeq]
      simp only [hlt1]
      simp only [hcut]
      simp only [hul]
      simp only [hlt2]
      rw [strip_erase_state]
      rw [strip_perm_congr st (nus ++ dt.users) hperm]
    refine ⟨{ target := target, users := nus ++ dt.users,
              sname := (cutUsers (nus ++ dt.users) dt).name,
              uplink := (cutUsers (nus ++ dt.users) dt).uplink,
              nicks := nicks,
              serverdata := cutUsers (nus ++ dt.users) dt,
              channeldata := st.channels,
              affectedServers := target :: nss }, hcomp, ?_, ?_, ?_⟩
    · intro x
      simp only [List.mem_cons]
      exact or_congr Iff.rfl (hdesc_iff x)
    · exact List.nodup_cons.mpr ⟨hts, hnssnd⟩
    · intro u
      constructor
      · intro hu
        rcases List.mem_append.mp hu with h1 | h2
        · obtain ⟨x, hx, dx, hxl, hxu⟩ := (hnus u).mp h1
          exact ⟨x, dx, hxl, Or.inr ((hdesc_iff x).mp hx), hxu⟩
        · exact ⟨target, dt, hdt, Or.inl rfl, h2⟩
      · rintro ⟨x, dx, hxl, hxc, hxu⟩
        rcases hxc with rfl | hd
        · rw [hdt] at hxl
          have hdx : dt = dx := Option.some.inj hxl
          apply List.mem_append_right
          rw [hdx]
          exact hxu
        · apply List.mem_append_left
          exact (hnus u).mpr ⟨x, (hdesc_iff x).mpr hd, dx, hxl, hxu⟩

/-- Claim C3: for every network state whose server table forms a tree
(witnessed by a rank function) and is well-formed (duplicate-free keys,
user sets known, duplicate-free and uniquely homed, SIDs self-resolving),
and every known split target distinct from the own SID and uplink, the
cascade `_squit` removes exactly the servers transitively uplinked to the
target (and the target itself) and exactly the users homed on those
servers, leaves every other server, user, and unrelated channel entry
unchanged, and returns an affected-servers list containing the target plus
each recursively removed server with no duplicates. -/
theorem squit_cascade_exact (fuel : Nat) (rank : String → Nat) (st : NetState)
    (target a0 : String) (rest : List String)
    (hres : resolveSID st a0 = target) (hMH : MasterHyp rank st target)
    (hfuel : rank target < fuel) :
    ∃ (st' : NetState) (pay : SquitPayload),
      squitFuel fuel st (a0 :: rest) = .ok st' (some pay) ∧
      CascadeExact st st' target pay := by
  obtain ⟨pay, heq, haff, hnd, husers⟩ := squit_master fuel rank st target a0 rest hres hMH hfuel
  obtain ⟨hknd, hrk, hsk, huh, hsn, hrs, hknown, htsid, htupl, hrsid, hrupl⟩ := hMH
  refine ⟨stripState st pay.affectedServers pay.users, pay, heq,
    haff, hnd, husers, ?_, ?_, ?_, ?_, ?_⟩
  · intro x hx
    rw [strip_servers_alookup, if_pos ((haff x).mpr hx)]
  · intro x d hlk hnot
    have hxnotin : ¬ x ∈ pay.affectedServers := fun hmem => hnot ((haff x).mp hmem)
    rw [strip_servers_alookup, if_neg hxnotin, hlk]
    have hid : cutUsers pay.users d = d := by
      unfold cutUsers
      rw [List.filter_eq_self.mpr ?_]
      intro u hu
      simp only [decide_eq_true_eq]
      intro hmem
      obtain ⟨s, dsrv, hsl, hsc, hu'⟩ := (husers u).mp hmem
      have hxs : x = s :=
        huh (x, d) (alookup_mem hlk) (s, dsrv) (alookup_mem hsl) u hu hu'
      exact hnot (hxs ▸ hsc)
    rw [Option.map_some', hid]
  · intro u hu
    rw [strip_users_alookup, if_pos ((husers u).mpr hu)]
  · intro u ud hlk hnot
    have hunotin : ¬ u ∈ pay.users := fun hmem => hnot ((husers u).mp hmem)
    rw [strip_users_alookup, if_neg hunotin, hlk]
  · intro c cd hmem hnone
    have hid : cutChan pay.users cd = cd := by
      unfold cutChan
      rw [List.filter_eq_self.mpr ?_]
      intro u hu
      simp only [decide_eq_true_eq]
      exact fun hin => hnone u hu ((husers u).mp hin)
    simp only [stripState]
    exact List.mem_map.mpr ⟨(c, cd), hmem, by rw [hid]⟩

/-- Witness for claim C3: the two-level split scenario. Splitting `00A`
(which hosts `00B` which hosts `00C`, with users attached at every level)
removes exactly the subtree and its users, leaving the unrelated server
`00Z`, its user, and the untouched channel membership intact. -/
theorem squit_cascade_exact_witness :
    resolveSID cascadeSt "00A" = "00A" ∧
    MasterHyp cascadeRank cascadeSt "00A" ∧
    cascadeRank "00A" < 4 ∧
    (∃ (st' : NetState) (pay : SquitPayload),
      squitFuel 4 cascadeSt ["00A", "hub split"] = .ok st' (some pay) ∧
      CascadeExact cascadeSt st' "00A" pay) :=
  ⟨by decide, by decide, by decide,
   squit_cascade_exact 4 cascadeRank cascadeSt "00A" "00A" ["hub split"]
     (by decide) (by decide) (by decide)⟩

end PyLink
